import Mathlib

/-!
Shallow embedding of the reddit-content-planner allocation and scoring engine.

Sources embedded here:
* `src/lib/types.ts` — data model (only the fields the embedded functions read).
* `src/lib/planner/persona-selector.ts` — selectPostAuthor, selectCommenters,
  calculatePersonaUsage, calculateRelevanceScore.
* `src/unnamed/part_005` (subreddit-selector) — selectSubredditsForWeek.
* `src/unnamed/part_004` (thread-planner, full version) — planCommentThread,
  isContentClean, countDashes, calculateRiskScore, calculateThreadQuality.
* `src/lib/planner/thread-planner.ts` — its calculateThreadQuality variant
  (identical to part_004's minus the comment-length-variety block).

Modelling conventions:
* JS numbers are modelled as ℚ (scores) or ℕ/ℤ (counts, timestamps in ms);
  all the verified properties stay far from any floating-point boundary.
* `Math.random()` is modelled by an explicit stream `rand : ℕ → ℚ` of draws,
  consumed in exactly the order the source draws them; theorems that need it
  assume `∀ n, 0 ≤ rand n ∧ rand n < 1`.
* The external LLM calls (structure planning, text generation) are oracle
  parameters: an arbitrary validated thread plan, and a `textOf` oracle for
  generated comment text.
* JS case-insensitive regex tests are modelled by executable character-list
  scanners over lowercased text; `Math.sqrt(variance) ≥ 5` style comparisons
  are modelled by the equivalent squared comparisons on exact rationals.
-/

/-- Persona record (src/lib/types.ts); only the fields read by the planner. -/
structure Persona where
  id : String
  username : String
  bio : String
  is_active : Bool
  is_operator : Bool
deriving DecidableEq

/-- Subreddit record (src/lib/types.ts); only the fields read by the planner. -/
structure Subreddit where
  name : String
  is_active : Bool
deriving DecidableEq

/-- PlannedPost record (src/lib/types.ts); only the fields read by the planner. -/
structure PlannedPost where
  subreddit_name : String
  author_persona_id : String
deriving DecidableEq

/-- PlannedComment record (src/lib/types.ts); only the field read by the planner. -/
structure PlannedComment where
  author_persona_id : String
deriving DecidableEq

/-- PlannedThreadComment (src/unnamed/part_004): one planned comment of a thread.
`scheduledAt` is the JS `Date` in milliseconds since epoch (`Date.getTime()`);
`replyToIndex` is `null` for a top-level comment. -/
structure PlannedThreadComment where
  authorPersona : Persona
  replyToIndex : Option Int
  text : String
  scheduledAt : Int
  isAuthorReply : Bool
deriving DecidableEq

/-- Clamp to [0,1]: JS `Math.max(0, Math.min(1, x))`. -/
def clamp01 (x : ℚ) : ℚ := max 0 (min 1 x)

/-- Word-count scan: counts maximal non-whitespace runs. `inWord` records
whether the previous character was part of a word. -/
def countWordsAux : List Char → Bool → Nat
  | [], _ => 0
  | c :: rest, inWord =>
    if c.isWhitespace then countWordsAux rest false
    else (if inWord then 0 else 1) + countWordsAux rest true

/-- countWords (part_004): `text.trim().split(/\s+/).filter(Boolean).length`.
Counting the maximal non-whitespace runs yields the same word count as
trimming, splitting on whitespace runs and dropping empty pieces. -/
def countWords (text : String) : Nat := countWordsAux text.toList false

/-- Number of comments authored by `pid`: the per-persona comment count of a
filtered list, as tallied by `calculatePersonaUsage` (persona-selector.ts). -/
def commentCountFor (comments : List PlannedThreadComment) (pid : String) : Nat :=
  (comments.filter (fun c => c.authorPersona.id == pid)).length

/-- Adjacent-gap timing check of `calculateThreadQuality`: every consecutive
scheduling gap must be within [3, 120] minutes (the source breaks out and
withholds the bonus as soon as one gap is out of range). -/
def goodTiming (comments : List PlannedThreadComment) : Bool :=
  (comments.zip comments.tail).all fun p =>
    let gapMinutes : ℚ := (((p.2.scheduledAt - p.1.scheduledAt : ℤ) : ℚ)) / (1000 * 60)
    decide (3 ≤ gapMinutes ∧ gapMinutes ≤ 120)

/-- Comment-frequency balance block of `calculateThreadQuality`: for each
distinct commenting persona, −0.1 if it comments more than once and is not the
post author, and a further −0.15 if it comments more than twice. -/
def frequencyPenalty (comments : List PlannedThreadComment) (postAuthorId : String) : ℚ :=
  ((comments.map (fun c => c.authorPersona.id)).dedup.map (fun pid =>
    let count := commentCountFor comments pid
    (if 1 < count ∧ pid ≠ postAuthorId then (-1 : ℚ)/10 else 0) +
    (if 2 < count then (-3 : ℚ)/20 else 0))).sum

/-- The unclamped structural quality score shared verbatim by both
`calculateThreadQuality` versions (part_004 and thread-planner.ts): the 0.5
base plus the variety, first-commenter, top-level/reply mix, depth,
OP-participation, timing and frequency-balance terms, in source order. -/
def qualityStructureScore (comments : List PlannedThreadComment) (postAuthorId : String) : ℚ :=
  let uniqueCommenters := (comments.map (fun c => c.authorPersona.id)).dedup
  (1/2 : ℚ)
  + (if 2 ≤ uniqueCommenters.length ∧ uniqueCommenters.length ≤ 4 then 1/10 else 0)
  + (match comments.head? with
     | some c0 => if c0.authorPersona.id ≠ postAuthorId then (1:ℚ)/10 else 0
     | none => 0)
  + (let topLevelCount := (comments.filter (fun c => c.replyToIndex.isNone)).length
     if 0 < topLevelCount ∧ 0 < comments.length - topLevelCount then (3:ℚ)/20 else 0)
  + (if comments.any (fun c => match c.replyToIndex with
       | some j => decide (0 < j)
       | none => false) then (1:ℚ)/10 else 0)
  + (if comments.any (fun c => c.authorPersona.id == postAuthorId) then (1:ℚ)/10 else 0)
  + (if goodTiming comments then (1:ℚ)/20 else 0)
  + frequencyPenalty comments postAuthorId

/-- Variance of the comment word counts, as computed by part_004's
comment-length-variety block (mean, then mean of squared deviations). -/
def commentWordVariance (comments : List PlannedThreadComment) : ℚ :=
  let lengths := comments.map (fun c => (countWords c.text : ℚ))
  let avgLength := lengths.sum / (lengths.length : ℚ)
  (lengths.map (fun len => (len - avgLength)^2)).sum / (lengths.length : ℚ)

/-- Comment-length-variety block of part_004's `calculateThreadQuality`
(executed only when at least 2 comments exist): +0.1 if the standard deviation
of word counts is ≥ 5, −0.15 if it is < 3, and +0.05 if some comment has at
most 5 words. The source compares `Math.sqrt(variance)` with 5 and 3; this is
modelled by the equivalent comparisons of the exact variance with 25 and 9. -/
def lengthVarietyScore (comments : List PlannedThreadComment) : ℚ :=
  let v := commentWordVariance comments
  (if 25 ≤ v then (1:ℚ)/10 else if v < 9 then (-3 : ℚ)/20 else 0)
  + (if comments.any (fun c => countWords c.text ≤ 5) then (1:ℚ)/20 else 0)

/-- calculateThreadQuality (src/unnamed/part_004, lines 643-736): structural
quality terms plus the comment-length-variety block, clamped to [0,1]. -/
def calculateThreadQuality (comments : List PlannedThreadComment) (postAuthorId : String) : ℚ :=
  clamp01 (qualityStructureScore comments postAuthorId
    + (if 2 ≤ comments.length then lengthVarietyScore comments else 0))

/-- calculateThreadQuality (src/lib/planner/thread-planner.ts, lines 284-348):
identical to the part_004 version except that it has no comment-length-variety
block. -/
def calculateThreadQualityTP (comments : List PlannedThreadComment) (postAuthorId : String) : ℚ :=
  clamp01 (qualityStructureScore comments postAuthorId)

/-- Apostrophe character, used to build pattern literals. -/
def apos : String := String.mk [Char.ofNat 39]

/-- ASCII lowercasing to a character list (the JS `toLowerCase()` used by the
source; every pattern involved is ASCII). -/
def lowerChars (s : String) : List Char := s.toList.map Char.toLower

/-- ASCII lowercasing as a string. -/
def lowerStr (s : String) : String := String.mk (lowerChars s)

/-- JS regex word character `\w` = [A-Za-z0-9_]. -/
def isWordChar (c : Char) : Bool := c.isAlphanum || c == '_'

/-- Substring occurrence on character lists (JS `String.includes` /
an anchorless literal regex test). -/
def occursIn (pat : List Char) (l : List Char) : Bool :=
  l.tails.any (fun t => pat.isPrefixOf t)

/-- JS `hay.includes(pat)` on strings. -/
def containsSubstr (hay pat : String) : Bool := occursIn pat.toList hay.toList

/-- Literal-substring regex test against already-lowercased text. -/
def containsL (pat : String) (l : List Char) : Bool := occursIn pat.toList l

/-- Match `pre.?post` at the head of `l`: the regex `.?` consumes zero or one
character other than a newline. -/
def gapMatchAt (pre post : List Char) (l : List Char) : Bool :=
  pre.isPrefixOf l &&
    (let rest := l.drop pre.length
     post.isPrefixOf rest ||
       (match rest with
        | c :: rest2 => c != '\n' && post.isPrefixOf rest2
        | [] => false))

/-- Anchorless test for `pre.?post` (e.g. `/game.?changer/`). -/
def gapOccurs (pre post : String) (l : List Char) : Bool :=
  l.tails.any (gapMatchAt pre.toList post.toList)

/-- Anchorless test for a literal followed by at least one word character
(regex `lit\w+`, where nothing after the `\w+` is required). -/
def litThenWordOccurs (pre : String) (l : List Char) : Bool :=
  l.tails.any (fun t =>
    pre.toList.isPrefixOf t &&
      (match t.drop pre.toList.length with
       | c :: _ => isWordChar c
       | [] => false))

/-- One or more word characters followed by `post` (regex `\w+post` at the
current position, with backtracking semantics). -/
def wordRunThen (post : List Char) : List Char → Bool
  | [] => false
  | c :: rest => isWordChar c && (post.isPrefixOf rest || wordRunThen post rest)

/-- Anchorless test for `pre\w+post` (e.g. the `\w+` in the middle of a
templated-recommendation pattern). -/
def litWordLitOccurs (pre post : String) (l : List Char) : Bool :=
  l.tails.any (fun t =>
    pre.toList.isPrefixOf t && wordRunThen post.toList (t.drop pre.toList.length))

/-- A word boundary holds after the match if the next character is not a word
character (or the text ends). -/
def boundaryAfter : List Char → Bool
  | [] => true
  | c :: _ => !isWordChar c

/-- Scan for `\bpat\b`: `prev` is the character just before the current
position (`none` at the start of the text). -/
def wordBoundedAux (pat : List Char) (prev : Option Char) (l : List Char) : Bool :=
  (pat.isPrefixOf l
    && (match prev with | none => true | some c => !isWordChar c)
    && boundaryAfter (l.drop pat.length)) ||
  (match l with
   | [] => false
   | c :: rest => wordBoundedAux pat (some c) rest)

/-- Anchorless test for the word-bounded token `\bpat\b`. -/
def wordBoundedOccurs (pat : String) (l : List Char) : Bool :=
  wordBoundedAux pat.toList none l

/-- Zero or more whitespace characters followed by the literal "this"
(the tail of the `/\^\s*this/` marker). -/
def wsThenThis (l : List Char) : Bool :=
  ("this".toList.isPrefixOf l) ||
    (match l with
     | c :: rest => c.isWhitespace && wsThenThis rest
     | [] => false)

/-- Anchorless test for `/\^\s*this/`. -/
def caretThisOccurs (l : List Char) : Bool :=
  l.tails.any (fun t =>
    match t with
    | '^' :: rest => wsThenThis rest
    | _ => false)

/-- Whitespace run (possibly continuing) ending in a word character
(the `\s+\w+` tail, after its first whitespace character was consumed). -/
def wsThenWord : List Char → Bool
  | [] => false
  | c :: rest => isWordChar c || (c.isWhitespace && wsThenWord rest)

/-- Anchorless test for `/\+1\s+\w+/` ("+1 ProductName"). -/
def plusOneOccurs (l : List Char) : Bool :=
  l.tails.any (fun t =>
    match t with
    | '+' :: '1' :: c :: rest => c.isWhitespace && wsThenWord rest
    | _ => false)

/-- Top-level domains of part_004's bare-domain pattern. -/
def domainTlds : List String :=
  ["com", "io", "ai", "co", "org", "net", "app", "dev", "xyz"]

/-- Some listed TLD matches at the head of `l` and is followed by a word
boundary. -/
def tldAt (l : List Char) : Bool :=
  domainTlds.any (fun t => t.toList.isPrefixOf l && boundaryAfter (l.drop t.toList.length))

/-- Scan for `/\b\w+\.(com|io|...)\b/`: a dot preceded by a word character and
followed by a listed TLD with a trailing boundary. Taking the maximal word run
ending before the dot always satisfies the leading `\b\w+`, so checking only
the character before the dot is equivalent to the source regex. -/
def domainOccursAux (prev : Option Char) (l : List Char) : Bool :=
  (match prev, l with
   | some p, '.' :: rest => isWordChar p && tldAt rest
   | _, _ => false) ||
  (match l with
   | [] => false
   | c :: rest => domainOccursAux (some c) rest)

/-- isContentClean (part_004): false when the text contains a URL
(`https?://` or `www.`) or a bare domain with one of the listed TLDs. -/
def isContentClean (text : String) : Bool :=
  let l := lowerChars text
  if containsL "http://" l || containsL "https://" l || containsL "www." l then false
  else if domainOccursAux none l then false
  else true

/-- countProhibitedContent (part_004): number of texts that are not clean. -/
def countProhibitedContent (texts : List String) : Nat :=
  (texts.filter (fun text => !isContentClean text)).length

/-- MARKETING_BUZZWORDS (part_004): one case-insensitive alternation tested
against the whole text. -/
def marketingBuzzwordsTest (text : String) : Bool :=
  let l := lowerChars text
  gapOccurs "game" "changer" l || containsL "revolutionary" l ||
  containsL "amazing tool" l || gapOccurs "must" "have" l ||
  containsL "incredible" l || containsL "best ever" l ||
  gapOccurs "life" "changing" l || containsL "absolutely love" l ||
  containsL "highly recommend" l || containsL ("can" ++ apos ++ "t live without") l ||
  containsL "blown away" l || containsL "exceeded expectations" l

/-- AI_PATTERNS_STRONG (part_004): the 24 case-insensitive patterns, in source
order, each as a test on the lowercased character list. -/
def aiPatternsStrong : List (List Char → Bool) :=
  [ fun l => litThenWordOccurs "i switched to " l,
    fun l => litWordLitOccurs ("i" ++ apos ++ "ve been using ") " for" l,
    fun l => litThenWordOccurs "i started using " l,
    fun l => containsL "ever since i started" l || containsL "ever since i switched" l ||
      containsL "ever since i began" l,
    fun l => containsL "that being said" l,
    fun l => containsL "with that in mind" l,
    fun l => containsL ("it" ++ apos ++ "s worth noting") l ||
      containsL ("it" ++ apos ++ "s worth mentioning") l,
    fun l => containsL "speaking of which" l,
    fun l => containsL "on that note" l,
    fun l => containsL "as someone who" l,
    fun l => containsL "speaking as a" l,
    fun l => containsL "as a fellow" l,
    fun l => containsL "saved me hours" l,
    fun l => containsL "freed me to" l || containsL "freed me up to" l,
    fun l => containsL "so i can focus on" l || containsL "so i could focus on" l,
    fun l => containsL "i had the same issue" l || containsL "i had the same problem" l,
    fun l => containsL "solved this problem" l || containsL "solved my problem" l ||
      containsL "solved the problem" l,
    fun l => containsL "exactly what i needed" l,
    fun l => containsL "works perfectly" l,
    fun l => containsL "i have to say" l,
    fun l => containsL "i must say" l,
    fun l => containsL ("here" ++ apos ++ "s what") l || containsL ("here" ++ apos ++ "s how") l,
    fun l => containsL "the key is" l || containsL "the trick is" l ||
      containsL "the secret is" l,
    fun l => containsL "pro tip:" l ]

/-- countAiPatterns (part_004): how many of the AI patterns match the text. -/
def countAiPatterns (text : String) : Nat :=
  (aiPatternsStrong.filter (fun p => p (lowerChars text))).length

/-- FORMAL_PATTERNS (part_004): 21 literal case-insensitive patterns. -/
def formalPatterns : List String :=
  ["specifically whether", "with regard to", "in terms of", "in order to",
   "utilize", "leverage", "facilitate", "workflow", "streamline", "optimize",
   "hierarchy", "functionality", "implementation", "methodology",
   "subsequently", "aforementioned", "regarding", "pertaining to",
   "i run ops", "fast growing", "quick question"]

/-- countFormalPatterns (part_004): how many formal patterns match the text. -/
def countFormalPatterns (text : String) : Nat :=
  (formalPatterns.filter (fun p => containsL p (lowerChars text))).length

/-- AUTHENTICITY_MARKERS (part_004): casual-language tests, in source order. -/
def authenticityMarkers : List (List Char → Bool) :=
  [ fun l => wordBoundedOccurs "lol" l,
    fun l => wordBoundedOccurs "lmao" l,
    fun l => wordBoundedOccurs "haha" l,
    fun l => containsL "!!" l,
    fun l => wordBoundedOccurs "yea" l,
    fun l => wordBoundedOccurs "yeah" l,
    fun l => wordBoundedOccurs "sorta" l,
    fun l => wordBoundedOccurs "gonna" l,
    fun l => wordBoundedOccurs "wanna" l,
    fun l => wordBoundedOccurs "gotta" l,
    fun l => wordBoundedOccurs "kinda" l,
    fun l => wordBoundedOccurs "dunno" l,
    fun l => wordBoundedOccurs "tbh" l,
    fun l => wordBoundedOccurs "imo" l,
    fun l => wordBoundedOccurs "imho" l,
    fun l => wordBoundedOccurs "fwiw" l,
    fun l => wordBoundedOccurs "btw" l,
    fun l => wordBoundedOccurs "ngl" l,
    fun l => wordBoundedOccurs "idk" l,
    fun l => wordBoundedOccurs "omg" l,
    fun l => caretThisOccurs l,
    fun l => plusOneOccurs l ]

/-- countAuthenticityMarkers (part_004): how many markers match the text. -/
def countAuthenticityMarkers (text : String) : Nat :=
  (authenticityMarkers.filter (fun p => p (lowerChars text))).length

/-- AI_FILLER_WORDS test (part_004): literal case-insensitive alternation. -/
def aiFillerWordsTest (text : String) : Bool :=
  let l := lowerChars text
  containsL "additionally" l || containsL "furthermore" l || containsL "moreover" l ||
  containsL "essentially" l || containsL "certainly" l || containsL "obviously" l ||
  containsL "clearly" l

/-- isContentTooLong (part_004): posts over 80 words, comments over 30. -/
def isContentTooLong (text : String) (isPost : Bool) : Bool :=
  if isPost then decide (80 < countWords text) else decide (30 < countWords text)

/-- Occurrences of a single character. -/
def countChar (c : Char) (l : List Char) : Nat := (l.filter (fun x => x == c)).length

/-- Non-overlapping occurrences of `/\s-\s/` (spaced hyphen as punctuation). -/
def countSpacedHyphen : List Char → Nat
  | a :: rest₁@('-' :: b :: rest₂) =>
      if a.isWhitespace && b.isWhitespace then 1 + countSpacedHyphen rest₂
      else countSpacedHyphen rest₁
  | _ :: rest => countSpacedHyphen rest
  | [] => 0

/-- Non-overlapping occurrences of `--`. -/
def countDoubleHyphen : List Char → Nat
  | '-' :: '-' :: rest => 1 + countDoubleHyphen rest
  | _ :: rest => countDoubleHyphen rest
  | [] => 0

/-- countDashes (part_004): em-dashes, en-dashes, spaced hyphens and double
hyphens summed over all the texts. -/
def countDashes (texts : List String) : Nat :=
  (texts.map (fun text =>
    countChar '—' text.toList + countChar '–' text.toList +
    countSpacedHyphen text.toList + countDoubleHyphen text.toList)).sum

/-- JS string truthiness for optional string arguments: an absent or empty
string behaves as missing (`if (postBody)`, `productName && productName.length > 0`). -/
def truthyStr : Option String → Option String
  | some s => if s.isEmpty then none else some s
  | none => none

/-- The `allTexts` array of calculateRiskScore: every comment text, plus the
post body when it is a non-empty string. -/
def allTextsOf (comments : List PlannedThreadComment) (postBody : Option String) : List String :=
  comments.map (fun c => c.text) ++
    (match truthyStr postBody with
     | some b => [b]
     | none => [])

/-- Case-insensitive product-mention test
(`t.toLowerCase().includes(productName.toLowerCase())`). -/
def mentionsProduct (productName : String) (t : String) : Bool :=
  occursIn (lowerChars productName) (lowerChars t)

/-- Risk feature: number of texts (comments + body) with prohibited patterns. -/
def riskProhibitedCount (comments : List PlannedThreadComment) (postBody : Option String) : Nat :=
  countProhibitedContent (allTextsOf comments postBody)

/-- Risk feature: number of texts containing a marketing buzzword. -/
def riskBuzzwordCount (comments : List PlannedThreadComment) (postBody : Option String) : Nat :=
  ((allTextsOf comments postBody).filter marketingBuzzwordsTest).length

/-- Risk feature: total AI-pattern matches across the comment texts. -/
def riskAiTotal (comments : List PlannedThreadComment) : Nat :=
  ((comments.map (fun c => c.text)).map countAiPatterns).sum

/-- Risk feature: number of comment texts containing an AI filler word. -/
def riskFillerCount (comments : List PlannedThreadComment) : Nat :=
  ((comments.map (fun c => c.text)).filter aiFillerWordsTest).length

/-- Risk feature: the post body exists (is truthy) and exceeds 80 words. -/
def riskPostLongFlag (postBody : Option String) : Bool :=
  match truthyStr postBody with
  | some b => isContentTooLong b true
  | none => false

/-- Risk feature: number of comment texts over 30 words. -/
def riskLongCommentCount (comments : List PlannedThreadComment) : Nat :=
  ((comments.map (fun c => c.text)).filter (fun t => isContentTooLong t false)).length

/-- Risk feature: total formal-pattern matches across comments + body. -/
def riskFormalTotal (comments : List PlannedThreadComment) (postBody : Option String) : Nat :=
  ((allTextsOf comments postBody).map countFormalPatterns).sum

/-- Risk feature: total dash count across comments + body. -/
def riskDashCount (comments : List PlannedThreadComment) (postBody : Option String) : Nat :=
  countDashes (allTextsOf comments postBody)

/-- Risk feature: total authenticity markers across comments + body. -/
def riskAuthTotal (comments : List PlannedThreadComment) (postBody : Option String) : Nat :=
  ((allTextsOf comments postBody).map countAuthenticityMarkers).sum

/-- Risk feature: fraction of texts mentioning the product, 0 when no product
name is supplied. The source computes `count / allTexts.length`, which for an
empty text list is JS `NaN` and fails every threshold test, exactly as the
rational 0/0 = 0 does here. -/
def riskMentionFraction (comments : List PlannedThreadComment) (postBody : Option String)
    (productName : Option String) : ℚ :=
  match truthyStr productName with
  | some prod =>
      let texts := allTextsOf comments postBody
      ((texts.filter (mentionsProduct prod)).length : ℚ) / (texts.length : ℚ)
  | none => 0

/-- Risk feature: at least two non-author commenters mention the product. -/
def riskCoordFlag (comments : List PlannedThreadComment) (postAuthorId : String)
    (productName : Option String) : Bool :=
  match truthyStr productName with
  | some prod =>
      2 ≤ (comments.filter (fun c =>
        c.authorPersona.id != postAuthorId && mentionsProduct prod c.text)).length
  | none => false

/-- Risk feature: the author asks a question in a reply without mentioning the
product (while a product name is supplied). -/
def riskFishingFlag (comments : List PlannedThreadComment) (postAuthorId : String)
    (productName : Option String) : Bool :=
  match truthyStr productName with
  | some prod =>
      let opComments := comments.filter (fun c => c.authorPersona.id == postAuthorId)
      (opComments.any (fun c => c.text.toList.contains '?' && !c.replyToIndex.isNone))
        && !(opComments.any (fun c => mentionsProduct prod c.text))
  | none => false

/-- Prohibited-pattern risk term: `0.3 × min(count, 3)` when positive. -/
def termProhibited (n : Nat) : ℚ := if 0 < n then (3/10) * (min n 3 : ℕ) else 0

/-- Buzzword risk term: `0.15 × min(count, 2)` when positive. -/
def termBuzz (n : Nat) : ℚ := if 0 < n then (3/20) * (min n 2 : ℕ) else 0

/-- AI-pattern risk term: 0.4 for ≥ 5 matches, 0.25 for ≥ 3, else 0.1 each. -/
def termAi (n : Nat) : ℚ :=
  if 0 < n then (if 5 ≤ n then 2/5 else if 3 ≤ n then 1/4 else (1/10) * n) else 0

/-- Filler-word risk term: 0.1 when at least two comments contain filler. -/
def termFiller (n : Nat) : ℚ := if 2 ≤ n then 1/10 else 0

/-- Post-length risk term: 0.15 when the body is over 80 words. -/
def termPostLong (b : Bool) : ℚ := if b then 3/20 else 0

/-- Long-comment risk term: `0.1 × min(count, 3)` when positive. -/
def termLongComments (n : Nat) : ℚ := if 0 < n then (1/10) * (min n 3 : ℕ) else 0

/-- Formal-language risk term: 0.2 for ≥ 3 matches, else 0.1 each. -/
def termFormal (n : Nat) : ℚ := if 3 ≤ n then 1/5 else if 1 ≤ n then (1/10) * n else 0

/-- Dash risk term: 0.25 for ≥ 3 dashes, else 0.1 each. -/
def termDash (n : Nat) : ℚ := if 3 ≤ n then 1/4 else if 1 ≤ n then (1/10) * n else 0

/-- Authenticity bonus: −0.15 for ≥ 2 markers, −0.05 for one. -/
def termAuth (n : Nat) : ℚ := if 2 ≤ n then -(3/20) else if 1 ≤ n then -(1/20) else 0

/-- Product-mention saturation term: 0.4 / 0.25 / 0.1 at ratio ≥ 0.75 / 0.5 / 0.25. -/
def termMention (r : ℚ) : ℚ :=
  if 3/4 ≤ r then 2/5 else if 1/2 ≤ r then 1/4 else if 1/4 ≤ r then 1/10 else 0

/-- Coordinated-shilling term: 0.2 when at least two non-author commenters
mention the product. -/
def termCoord (b : Bool) : ℚ := if b then 1/5 else 0

/-- OP-fishing term: 0.1 when the author asks a question about the product
without mentioning it while a non-author does. -/
def termFish (b : Bool) : ℚ := if b then 1/10 else 0

/-- calculateRiskScore (src/unnamed/part_004, lines 500-635). The source
accumulates `risk += …` block by block and clamps at the end; the accumulation
is written here as the sum of the independent block terms, in source order,
each applied to its feature of the input. -/
def calculateRiskScore (comments : List PlannedThreadComment) (postAuthorId : String)
    (postBody : Option String) (productName : Option String) : ℚ :=
  clamp01 (termProhibited (riskProhibitedCount comments postBody)
    + termBuzz (riskBuzzwordCount comments postBody)
    + termAi (riskAiTotal comments)
    + termFiller (riskFillerCount comments)
    + termPostLong (riskPostLongFlag postBody)
    + termLongComments (riskLongCommentCount comments)
    + termFormal (riskFormalTotal comments postBody)
    + termDash (riskDashCount comments postBody)
    + termAuth (riskAuthTotal comments postBody)
    + termMention (riskMentionFraction comments postBody productName)
    + termCoord (riskCoordFlag comments postAuthorId productName)
    + termFish (riskFishingFlag comments postAuthorId productName))

/-- Result of a persona selection (persona-selector.ts). -/
structure PersonaSelection where
  persona : Persona
  reason : String
deriving DecidableEq

/-- Scored persona, the intermediate record of both selectors. -/
structure ScoredPersona where
  persona : Persona
  score : ℚ
  reason : String
deriving DecidableEq

/-- DEFAULT_MAX_POSTS_PER_WEEK (persona-selector.ts). -/
def DEFAULT_MAX_POSTS_PER_WEEK : Nat := 2

/-- DEFAULT_MAX_COMMENTS_PER_WEEK (persona-selector.ts). -/
def DEFAULT_MAX_COMMENTS_PER_WEEK : Nat := 10

/-- Posts-this-week count of `calculatePersonaUsage`: each post increments the
tally of its `author_persona_id`, so a persona's count is the number of posts
it authored. -/
def postsThisWeekFor (posts : List PlannedPost) (pid : String) : Nat :=
  (posts.filter (fun p => p.author_persona_id == pid)).length

/-- Comments-this-week count of `calculatePersonaUsage`. -/
def commentsThisWeekFor (comments : List PlannedComment) (pid : String) : Nat :=
  (comments.filter (fun c => c.author_persona_id == pid)).length

/-- Role-keyword table of calculateRelevanceScore (persona-selector.ts), in
source (insertion) order. -/
def roleKeywords : List (String × List String) :=
  [("consultant", ["consulting", "client", "strategy", "business"]),
   ("sales", ["sales", "pitch", "customer", "deal", "prospect"]),
   ("student", ["student", "university", "academic", "class", "professor"]),
   ("pm", ["product", "roadmap", "feature", "engineering", "design"]),
   ("ops", ["operations", "process", "team", "startup"])]

/-- Subreddit-theme table of calculateRelevanceScore; record lookup on the
lowercased subreddit name. -/
def subredditThemes (name : String) : Option (List String) :=
  if name = "powerpoint" then some ["presentations", "slides", "deck"]
  else if name = "consulting" then some ["consultant", "business", "strategy"]
  else if name = "entrepreneur" then some ["startup", "business", "founder"]
  else if name = "productivity" then some ["ops", "process", "workflow"]
  else if name = "marketing" then some ["sales", "customer", "growth"]
  else none

/-- Per-role bonus of calculateRelevanceScore: +10 when the role's keywords
match the bio and some theme of the subreddit overlaps a role keyword (by
substring in either direction). -/
def roleBonus (bioLower subredditLower : String) (rk : String × List String) : ℚ :=
  let hasRole := rk.2.any (fun k => containsSubstr bioLower k)
  let matchesSubreddit := match subredditThemes subredditLower with
    | some themes => themes.any (fun theme =>
        rk.2.any (fun k => containsSubstr k theme || containsSubstr theme k))
    | none => false
  if hasRole && matchesSubreddit then (10 : ℚ) else 0

/-- calculateRelevanceScore (persona-selector.ts, lines 198-241): +15 when the
subreddit name occurs in the bio, +10 per role whose keywords match both the
bio and the subreddit themes, capped at 30; 0 for a falsy (empty) bio. -/
def calculateRelevanceScore (persona : Persona) (subreddit : Subreddit) : ℚ :=
  if persona.bio.isEmpty then 0
  else
    let bioLower := lowerStr persona.bio
    let subredditLower := lowerStr subreddit.name
    let base : ℚ := if containsSubstr bioLower subredditLower then 15 else 0
    min (base + (roleKeywords.map (roleBonus bioLower subredditLower)).sum) 30

/-- Scoring map of selectPostAuthor: personas at or above the weekly post cap
get score −1 without drawing randomness; the rest get
`100 − 25×postsThisWeek + relevance + random×15`, consuming one draw each, and
reason `topic_match` when the relevance term exceeds 10. `k` is the index of
the next unconsumed random draw. -/
def scorePostCandidates (subreddit : Subreddit) (posts : List PlannedPost)
    (rand : Nat → ℚ) : List Persona → Nat → List ScoredPersona
  | [], _ => []
  | p :: rest, k =>
    let postsCount := postsThisWeekFor posts p.id
    if DEFAULT_MAX_POSTS_PER_WEEK ≤ postsCount then
      ⟨p, -1, "at_max_posts"⟩ :: scorePostCandidates subreddit posts rand rest k
    else
      let relevanceBoost := calculateRelevanceScore p subreddit
      ⟨p, 100 - 25 * (postsCount : ℚ) + relevanceBoost + rand k * 15,
        if 10 < relevanceBoost then "topic_match" else "available"⟩ ::
        scorePostCandidates subreddit posts rand rest (k + 1)

/-- selectPostAuthor (persona-selector.ts, lines 22-83): null on an empty
active pool; an active operator persona (the first found) wins unconditionally
with reason `operator`; otherwise the under-cap personas are scored, filtered
to non-negative scores, sorted by descending score (JS stable sort) and the
top one returned. `existingComments` feeds the usage tally but the author path
only reads the post counts. -/
def selectPostAuthor (personas : List Persona) (subreddit : Subreddit)
    (existingPosts : List PlannedPost) (existingComments : List PlannedComment)
    (rand : Nat → ℚ) : Option PersonaSelection :=
  let activePersonas := personas.filter (fun p => p.is_active)
  if activePersonas.isEmpty then none
  else
    match activePersonas.find? (fun p => p.is_operator) with
    | some operatorPersona => some ⟨operatorPersona, "operator"⟩
    | none =>
      let scoredPersonas :=
        ((scorePostCandidates subreddit existingPosts rand activePersonas 0).filter
          (fun s => 0 ≤ s.score)).mergeSort (fun a b => decide (b.score ≤ a.score))
      match scoredPersonas.head? with
      | none => none
      | some top => some ⟨top.persona, top.reason⟩

/-- Scoring map of selectCommenters: personas at or above the weekly comment
cap get score −1 without drawing; the rest get
`100 − 5×commentsThisWeek + random×30`. Returns the scored list and the index
of the next unconsumed draw. -/
def scoreCommentCandidates (existingComments : List PlannedComment)
    (rand : Nat → ℚ) : List Persona → Nat → List ScoredPersona × Nat
  | [], k => ([], k)
  | p :: rest, k =>
    let c := commentsThisWeekFor existingComments p.id
    if DEFAULT_MAX_COMMENTS_PER_WEEK ≤ c then
      let r := scoreCommentCandidates existingComments rand rest k
      (⟨p, -1, "at_max_comments"⟩ :: r.1, r.2)
    else
      let r := scoreCommentCandidates existingComments rand rest (k + 1)
      (⟨p, 100 - 5 * (c : ℚ) + rand k * 30, "available"⟩ :: r.1, r.2)

/-- selectCommenters (persona-selector.ts, lines 91-161): scores the active
non-author personas, filters to non-negative scores, sorts descending, takes
`min(targetCount, poolSize, ⌊random×3⌋+2)`, then with probability one half
(draw > 0.5) appends the post author tagged `author_reply` provided the author
is under the comment cap. -/
def selectCommenters (personas : List Persona) (postAuthorId : String)
    (existingPosts : List PlannedPost) (existingComments : List PlannedComment)
    (targetCommentCount : Nat) (rand : Nat → ℚ) : List PersonaSelection :=
  let activePersonas := personas.filter (fun p => p.is_active)
  let nonAuthors := activePersonas.filter (fun p => p.id ≠ postAuthorId)
  let scored := scoreCommentCandidates existingComments rand nonAuthors 0
  let scoredPersonas :=
    (scored.1.filter (fun s => 0 ≤ s.score)).mergeSort (fun a b => decide (b.score ≤ a.score))
  let actualCount :=
    min targetCommentCount (min scoredPersonas.length ((3 * rand scored.2).floor.toNat + 2))
  let selections := (scoredPersonas.take actualCount).map
    (fun s => (⟨s.persona, s.reason⟩ : PersonaSelection))
  if 1/2 < rand (scored.2 + 1) then
    match activePersonas.find? (fun p => p.id == postAuthorId) with
    | some postAuthor =>
      if commentsThisWeekFor existingComments postAuthorId < DEFAULT_MAX_COMMENTS_PER_WEEK then
        selections ++ [⟨postAuthor, "author_reply"⟩]
      else selections
    | none => selections
  else selections

/-- The base (non-author) selection list of selectCommenters: the top
`min(targetCount, poolSize, random 2..4)` of the sorted non-negatively scored
non-author candidates, before the optional author append. -/
def commenterBase (personas : List Persona) (postAuthorId : String)
    (comments : List PlannedComment) (target : Nat) (rand : Nat → ℚ) :
    List PersonaSelection :=
  let activePersonas := personas.filter (fun p => p.is_active)
  let nonAuthors := activePersonas.filter (fun p => p.id ≠ postAuthorId)
  let scored := scoreCommentCandidates comments rand nonAuthors 0
  let scoredPersonas := (scored.1.filter (fun s => 0 ≤ s.score)).mergeSort
    (fun a b => decide (b.score ≤ a.score))
  let actualCount :=
    min target (min scoredPersonas.length ((3 * rand scored.2).floor.toNat + 2))
  (scoredPersonas.take actualCount).map (fun s => (⟨s.persona, s.reason⟩ : PersonaSelection))

/-- Result of a subreddit selection (subreddit-selector, part_005). -/
structure SubredditSelection where
  subreddit : Subreddit
  reason : String
deriving DecidableEq

/-- Scored subreddit, the per-slot intermediate record. -/
structure ScoredSubreddit where
  subreddit : Subreddit
  score : ℚ
  reason : String
deriving DecidableEq

/-- Running usage count of a subreddit name: posts already scheduled this week
plus selections made earlier in this pass (the two Maps of the source). -/
def subredditTotalCount (existing : List PlannedPost)
    (selected : List SubredditSelection) (name : String) : Nat :=
  (existing.filter (fun p => p.subreddit_name == name)).length +
  (selected.filter (fun s => s.subreddit.name == name)).length

/-- Per-slot scoring of every active subreddit, in order:
`100 − 30×totalCount + random×20`, with reason `fresh_subreddit` at count 0.
`base` is the index of the slot's first random draw. -/
def scoreSubreddits (active : List Subreddit) (existing : List PlannedPost)
    (selected : List SubredditSelection) (rand : Nat → ℚ) (base : Nat) :
    List ScoredSubreddit :=
  active.enum.map (fun js =>
    let totalCount := subredditTotalCount existing selected js.2.name
    ⟨js.2, 100 - 30 * (totalCount : ℚ) + rand (base + js.1) * 20,
      if totalCount == 0 then "fresh_subreddit" else "available"⟩)

/-- The slot loop of selectSubredditsForWeek: for each remaining slot, score
the active subreddits, sort by descending score (JS stable sort) and append
the top one. `i` is the 0-based slot number (it fixes which random draws the
slot consumes); the `none` branch of `head?` is unreachable for a non-empty
active list. -/
def selectSlots (active : List Subreddit) (existing : List PlannedPost)
    (rand : Nat → ℚ) : Nat → Nat → List SubredditSelection → List SubredditSelection
  | _, 0, acc => acc
  | i, n + 1, acc =>
    let sorted := (scoreSubreddits active existing acc rand (i * active.length)).mergeSort
      (fun a b => decide (b.score ≤ a.score))
    match sorted.head? with
    | none => acc
    | some selected =>
      selectSlots active existing rand (i + 1) n (acc ++ [⟨selected.subreddit, selected.reason⟩])

/-- selectSubredditsForWeek (src/unnamed/part_005, lines 12-62): fails when no
subreddit is active, otherwise runs the greedy slot loop `postsPerWeek` times. -/
def selectSubredditsForWeek (subreddits : List Subreddit) (postsPerWeek : Nat)
    (existingPostsThisWeek : List PlannedPost) (rand : Nat → ℚ) :
    Except String (List SubredditSelection) :=
  let activeSubreddits := subreddits.filter (fun s => s.is_active)
  if activeSubreddits.isEmpty then Except.error "No active subreddits available"
  else Except.ok (selectSlots activeSubreddits existingPostsThisWeek rand 0 postsPerWeek [])

/-- One node of the orchestrator's thread plan (part_004): `replies_to` is
`none` for "post" and `some j` for a numeric comment index. The validation the
source applies to LLM output only requires the three fields to be present and
truthy; it puts no bound whatsoever on the numeric index. -/
structure ThreadStructureItem where
  username : String
  replies_to : Option Int
  intent : String
deriving DecidableEq

/-- The validation applied to a parsed LLM thread plan (part_004, lines
115-123): every item needs a truthy username, a defined replies_to and a
truthy intent. -/
def validThreadItem (item : ThreadStructureItem) : Bool :=
  !item.username.isEmpty && !item.intent.isEmpty

/-- createFallbackStructure (part_004, lines 147-182): deterministic thread
plan used when the LLM call or its validation fails. -/
def createFallbackStructure (postAuthor : Persona) (commenters : List Persona)
    (numComments : Nat) : List ThreadStructureItem :=
  let nonAuthorCommenters := commenters.filter (fun c => c.id ≠ postAuthor.id)
  match nonAuthorCommenters with
  | [] => []
  | first :: restNA =>
    let plan := [(⟨first.username, none, "shares relevant experience or recommendation"⟩ :
      ThreadStructureItem)]
    let plan := if 2 ≤ numComments then
        match restNA with
        | second :: _ => plan ++ [⟨second.username, some 0, "agrees or adds to first comment"⟩]
        | [] => plan
      else plan
    if 3 ≤ numComments then
      plan ++ [⟨postAuthor.username, some ((plan.length : Int) - 1),
        "thanks for the recommendation"⟩]
    else plan

/-- The commenter pool of planCommentThread: the post author is appended when
not already among the commenters. -/
def allCommentersOf (postAuthor : Persona) (commenters : List Persona) : List Persona :=
  if commenters.any (fun c => c.id == postAuthor.id) then commenters
  else commenters ++ [postAuthor]

/-- Lookup in the persona Map of planCommentThread: keys are lowercased
usernames and later insertions overwrite earlier ones, so the lookup returns
the last persona whose lowercased username matches. -/
def lookupPersonaMap (ps : List Persona) (uname : String) : Option Persona :=
  ps.reverse.find? (fun p => lowerChars p.username == lowerChars uname)

/-- addRandomMinutes (part_004): `Math.floor(random × (max − min + 1)) + min`
minutes added to a millisecond timestamp. -/
def addRandomMinutesMs (t : Int) (r : ℚ) (lo hi : Nat) : Int :=
  t + (((((hi : ℚ) - (lo : ℚ) + 1) * r).floor + lo) * 60 * 1000)

/-- The comment-building loop of planCommentThread (part_004, lines 226-269)
over the enumerated plan. Unresolvable usernames are skipped without advancing
the clock or consuming a draw; a resolved node stores the plan's `replies_to`
index verbatim as `replyToIndex`, schedules 15-45 minutes after the post for
plan index 0 and 5-25 minutes after the previous comment otherwise, and takes
its text from the external generation call, modelled by the oracle `textOf`
applied to the plan index. `k` indexes the timing draws. -/
def planLoop (postAuthor : Persona) (allCommenters : List Persona) (rand : Nat → ℚ)
    (textOf : Nat → String) :
    List (Nat × ThreadStructureItem) → Int → Nat → List PlannedThreadComment →
    List PlannedThreadComment
  | [], _, _, acc => acc
  | (i, planned) :: rest, currentTime, k, acc =>
    match lookupPersonaMap allCommenters planned.username with
    | none => planLoop postAuthor allCommenters rand textOf rest currentTime k acc
    | some persona =>
      let isAuthorReply := persona.id == postAuthor.id
      let newTime := if i == 0 then addRandomMinutesMs currentTime (rand k) 15 45
        else addRandomMinutesMs currentTime (rand k) 5 25
      planLoop postAuthor allCommenters rand textOf rest newTime (k + 1)
        (acc ++ [⟨persona, planned.replies_to, textOf i, newTime, isAuthorReply⟩])

/-- planCommentThread (src/unnamed/part_004, lines 192-272), as a function of
the validated thread plan returned by the structure-planning stage (an
external LLM call, so the plan is an arbitrary list passing `validThreadItem`,
or a fallback plan). Returns the finalized ordered comment list. -/
def planCommentThread (thread_plan : List ThreadStructureItem) (postAuthor : Persona)
    (commenters : List Persona) (postScheduledAt : Int) (rand : Nat → ℚ)
    (textOf : Nat → String) : List PlannedThreadComment :=
  let allCommenters := allCommentersOf postAuthor commenters
  if thread_plan.isEmpty then []
  else planLoop postAuthor allCommenters rand textOf thread_plan.enum postScheduledAt 0 []

/-- Well-formedness of one enumerated plan node (C1): its reply target, when
numeric, points to a strictly earlier plan position. -/
def repliesToEarlier (x : Nat × ThreadStructureItem) : Bool :=
  match x.2.replies_to with
  | none => true
  | some j => decide (0 ≤ j ∧ j.toNat < x.1)

/-- Claim-side property (C1): the reply graph is a forest — every comment's
`replyToIndex` is either null or a valid index of a comment strictly earlier
in the same returned list. -/
def replyGraphIsForest (comments : List PlannedThreadComment) : Bool :=
  comments.enum.all (fun ic =>
    match ic.2.replyToIndex with
    | none => true
    | some j => decide (0 ≤ j ∧ j.toNat < ic.1))

/-- Claim-side restatement (C10) of the comment-length-variety adjustment as
three independent additive deltas: +0.1 when the standard deviation of word
counts is at least 5, −0.15 when it is below 3, +0.05 when some comment has at
most 5 words (standard-deviation thresholds modelled by squared comparisons). -/
def lengthVarietyAdjClaim (comments : List PlannedThreadComment) : ℚ :=
  let v := commentWordVariance comments
  (if 25 ≤ v then (1:ℚ)/10 else 0)
  + (if v < 9 then (-3 : ℚ)/20 else 0)
  + (if comments.any (fun c => countWords c.text ≤ 5) then (1:ℚ)/20 else 0)

/-- Decidable equality on the selector result type, for concrete witness
computations. -/
instance : DecidableEq (Except String (List SubredditSelection)) := fun a b =>
  match a, b with
  | Except.ok x, Except.ok y =>
    if h : x = y then isTrue (by rw [h])
    else isFalse (fun hc => h (Except.ok.inj hc))
  | Except.error x, Except.error y =>
    if h : x = y then isTrue (by rw [h])
    else isFalse (fun hc => h (Except.error.inj hc))
  | Except.ok _, Except.error _ => isFalse (fun hc => Except.noConfusion hc)
  | Except.error _, Except.ok _ => isFalse (fun hc => Except.noConfusion hc)

/-- Head of a list sorted by descending `f`-value (the JS
`sort((a, b) => b.score - a.score)[0]` idiom): it is an element of the
original list and maximizes `f` over it. -/
theorem mergeSort_head_max {α : Type} (f : α → ℚ) (l : List α) (x : α)
    (hx : (l.mergeSort (fun a b => decide (f b ≤ f a))).head? = some x) :
    x ∈ l ∧ ∀ y ∈ l, f y ≤ f x := by
  have hperm := List.mergeSort_perm l (fun a b => decide (f b ≤ f a))
  have hsorted := @List.sorted_mergeSort α (fun a b => decide (f b ≤ f a))
    (fun a b c hab hbc => by
      simp only [decide_eq_true_eq] at *
      exact le_trans hbc hab)
    (fun a b => by
      simp only [Bool.or_eq_true, decide_eq_true_eq]
      exact le_total (f b) (f a)) l
  obtain ⟨tl, htl⟩ : ∃ tl, l.mergeSort (fun a b => decide (f b ≤ f a)) = x :: tl := by
    cases h : l.mergeSort (fun a b => decide (f b ≤ f a)) with
    | nil => rw [h] at hx; exact absurd hx (by simp)
    | cons a tl =>
      rw [h] at hx
      simp only [List.head?_cons, Option.some.injEq] at hx
      exact ⟨tl, by rw [hx]⟩
  constructor
  · exact hperm.subset (htl ▸ List.mem_cons_self x tl)
  · intro y hy
    have hy2 : y ∈ x :: tl := htl ▸ hperm.symm.subset hy
    rcases List.mem_cons.1 hy2 with h | h
    · exact le_of_eq (congrArg f h)
    · have hs2 : List.Pairwise (fun a b => decide (f b ≤ f a) = true) (x :: tl) := by
        rw [← htl]; exact hsorted
      exact of_decide_eq_true (List.rel_of_pairwise_cons hs2 h)

/-- C3 (counterexample): the quality scorer on an empty comment list does not
return 0.5 — the vacuous good-timing bonus still fires, giving 0.55. -/
theorem quality_empty_ne_half : calculateThreadQuality [] "author-1" ≠ 1/2 := by
  norm_num [calculateThreadQuality, qualityStructureScore, clamp01, frequencyPenalty, goodTiming]

/-- C3 (amended): on an empty comment list both quality-scorer versions return
exactly 0.55 = 0.5 base + 0.05 vacuous good-timing bonus, for every
postAuthorId. -/
theorem quality_empty_eq (postAuthorId : String) :
    calculateThreadQuality [] postAuthorId = 11/20 ∧
    calculateThreadQualityTP [] postAuthorId = 11/20 := by
  constructor
  · norm_num [calculateThreadQuality, qualityStructureScore, clamp01, frequencyPenalty,
      goodTiming]
  · norm_num [calculateThreadQualityTP, qualityStructureScore, clamp01, frequencyPenalty,
      goodTiming]

/-- C9: the risk scorer on an empty comment list, with no post body and no
product name, returns exactly 0, for every postAuthorId. -/
theorem risk_empty_eq_zero (postAuthorId : String) :
    calculateRiskScore [] postAuthorId none none = 0 := by
  norm_num [calculateRiskScore, clamp01, riskProhibitedCount, riskBuzzwordCount, riskAiTotal,
    riskFillerCount, riskPostLongFlag, riskLongCommentCount, riskFormalTotal, riskDashCount,
    riskAuthTotal, riskMentionFraction, riskCoordFlag, riskFishingFlag, allTextsOf, truthyStr,
    countProhibitedContent, countDashes, termProhibited, termBuzz, termAi, termFiller,
    termPostLong, termLongComments, termFormal, termDash, termAuth, termMention, termCoord,
    termFish]

/-- C2: whenever some persona in the input is active with isOperator = true,
selectPostAuthor returns an active operator persona with reason "operator",
for every list of existing posts and comments (so the weekly post cap never
applies to it) and every random outcome. -/
theorem selectPostAuthor_operator_override
    (personas : List Persona) (subreddit : Subreddit)
    (existingPosts : List PlannedPost) (existingComments : List PlannedComment)
    (rand : Nat → ℚ) (p : Persona) (hp : p ∈ personas)
    (hact : p.is_active = true) (hop : p.is_operator = true) :
    ∃ q : Persona, q.is_active = true ∧ q.is_operator = true ∧
      selectPostAuthor personas subreddit existingPosts existingComments rand =
        some ⟨q, "operator"⟩ := by
  have hpa : p ∈ personas.filter (fun r => r.is_active) := List.mem_filter.2 ⟨hp, hact⟩
  have hsome : ((personas.filter (fun r => r.is_active)).find?
      (fun r => r.is_operator)).isSome := by
    rw [List.find?_isSome]
    exact ⟨p, hpa, hop⟩
  obtain ⟨q, hq⟩ := Option.isSome_iff_exists.1 hsome
  have hqmem := List.mem_of_find?_eq_some hq
  refine ⟨q, (List.mem_filter.1 hqmem).2, List.find?_some hq, ?_⟩
  have hne : (personas.filter (fun r => r.is_active)).isEmpty = false := by
    cases h : (personas.filter (fun r => r.is_active)).isEmpty
    · rfl
    · rw [List.isEmpty_iff] at h
      rw [h] at hpa
      exact absurd hpa (List.not_mem_nil p)
  unfold selectPostAuthor
  simp only [hne, Bool.false_eq_true, if_false, hq]

/-- Witness for C2 at a concrete input: one active operator persona that has
already authored two posts this week is still returned with reason operator. -/
theorem selectPostAuthor_operator_override_witness :
    ∃ q : Persona, q.is_active = true ∧ q.is_operator = true ∧
      selectPostAuthor [⟨"p1", "op", "", true, true⟩] ⟨"powerpoint", true⟩
        [⟨"powerpoint", "p1"⟩, ⟨"powerpoint", "p1"⟩] [] (fun _ => 0) =
        some ⟨q, "operator"⟩ :=
  selectPostAuthor_operator_override [⟨"p1", "op", "", true, true⟩] ⟨"powerpoint", true⟩
    [⟨"powerpoint", "p1"⟩, ⟨"powerpoint", "p1"⟩] [] (fun _ => 0)
    ⟨"p1", "op", "", true, true⟩ (by decide) (by decide) (by decide)

/-- Appending a comment whose reply pointer is null or points below the
current length preserves the forest property. -/
theorem replyGraphIsForest_append_singleton (acc : List PlannedThreadComment)
    (c : PlannedThreadComment)
    (hacc : replyGraphIsForest acc = true)
    (hc : match c.replyToIndex with
          | none => True
          | some j => 0 ≤ j ∧ j.toNat < acc.length) :
    replyGraphIsForest (acc ++ [c]) = true := by
  unfold replyGraphIsForest at *
  rw [List.enum_append, List.all_append, Bool.and_eq_true]
  refine ⟨hacc, ?_⟩
  simp only [List.enumFrom, List.all_cons, List.all_nil, Bool.and_true]
  cases h : c.replyToIndex with
  | none => rfl
  | some j =>
    rw [h] at hc
    simpa using hc

/-- The comment-building loop preserves the forest property when every
username resolves and every numeric reply index points strictly earlier in the
plan: under those assumptions no node is skipped, so output positions coincide
with plan indices. -/
theorem planLoop_forest (pa : Persona) (allC : List Persona) (rand : Nat → ℚ)
    (textOf : Nat → String) (items : List (Nat × ThreadStructureItem)) :
    ∀ (time : Int) (k : Nat) (acc : List PlannedThreadComment),
      (∀ x ∈ items, (lookupPersonaMap allC x.2.username).isSome) →
      (∀ x ∈ items, repliesToEarlier x = true) →
      (items.map Prod.fst = List.range' acc.length items.length) →
      replyGraphIsForest acc = true →
      replyGraphIsForest (planLoop pa allC rand textOf items time k acc) = true := by
  induction items with
  | nil => intro time k acc _ _ _ hacc; simpa [planLoop]
  | cons hd rest ih =>
    intro time k acc hres hidx hpos hacc
    obtain ⟨i, it⟩ := hd
    obtain ⟨persona, hp⟩ := Option.isSome_iff_exists.1
      (hres (i, it) (List.mem_cons_self _ _))
    simp only [List.map_cons, List.length_cons, List.range'_succ] at hpos
    have hpair := List.cons.inj hpos
    have hi : i = acc.length := hpair.1
    have hrest : rest.map Prod.fst = List.range' (acc.length + 1) rest.length := hpair.2
    simp only [planLoop, hp]
    apply ih
    · intro x hx; exact hres x (List.mem_cons_of_mem _ hx)
    · intro x hx; exact hidx x (List.mem_cons_of_mem _ hx)
    · simpa using hrest
    · apply replyGraphIsForest_append_singleton acc _ hacc
      have hh := hidx (i, it) (List.mem_cons_self _ _)
      unfold repliesToEarlier at hh
      cases h : it.replies_to with
      | none => trivial
      | some j =>
        rw [h] at hh
        have := of_decide_eq_true hh
        exact ⟨this.1, hi ▸ this.2⟩

/-- C1 (amended): planCommentThread returns a forest — every comment's
replyToIndex null or a valid strictly-earlier index — provided the plan it was
handed is well-formed: every username resolves against the commenter pool and
every numeric replies_to at plan position i points to an index < i. The code
itself copies replies_to into replyToIndex unvalidated, so this precondition
(satisfied by the deterministic fallback, but not enforced against LLM output)
is exactly what makes the invariant hold. -/
theorem planCommentThread_forest_of_valid_plan (thread_plan : List ThreadStructureItem)
    (postAuthor : Persona) (commenters : List Persona) (postScheduledAt : Int)
    (rand : Nat → ℚ) (textOf : Nat → String)
    (hres : ∀ x ∈ thread_plan.enum,
      (lookupPersonaMap (allCommentersOf postAuthor commenters) x.2.username).isSome)
    (hidx : ∀ x ∈ thread_plan.enum, repliesToEarlier x = true) :
    replyGraphIsForest
      (planCommentThread thread_plan postAuthor commenters postScheduledAt rand textOf) =
      true := by
  unfold planCommentThread
  by_cases he : thread_plan.isEmpty
  · simp [he, replyGraphIsForest]
  · simp only [he, Bool.false_eq_true, if_false]
    apply planLoop_forest _ _ _ _ _ _ _ _ hres hidx _ (by rfl)
    simp [List.enum_map_fst, List.range_eq_range']

/-- Witness for C1's amended theorem: a concrete well-formed two-node plan
(second comment replying to the first) yields a forest. -/
theorem planCommentThread_forest_of_valid_plan_witness :
    replyGraphIsForest
      (planCommentThread [⟨"alice", none, "a"⟩, ⟨"bob", some 0, "b"⟩]
        ⟨"pb", "bob", "", true, false⟩ [⟨"pa", "alice", "", true, false⟩] 0
        (fun _ => 0) (fun _ => "t")) = true :=
  planCommentThread_forest_of_valid_plan
    [⟨"alice", none, "a"⟩, ⟨"bob", some 0, "b"⟩]
    ⟨"pb", "bob", "", true, false⟩ [⟨"pa", "alice", "", true, false⟩] 0
    (fun _ => 0) (fun _ => "t") (by decide) (by decide)

/-- C1 (counterexample): a plan whose single node passes the source's
validation but replies to comment index 0 — itself — flows through
planCommentThread unchanged, so the returned thread has a comment whose
replyToIndex equals its own position: not a forest. -/
theorem planCommentThread_forest_violation :
    validThreadItem ⟨"alice", some 0, "x"⟩ = true ∧
    replyGraphIsForest
      (planCommentThread [⟨"alice", some 0, "x"⟩]
        ⟨"pb", "bob", "", true, false⟩ [⟨"pa", "alice", "", true, false⟩] 0
        (fun _ => 0) (fun _ => "t")) = false := by
  constructor
  · decide
  · decide

/-- C10: for every comment list with at least 2 comments, part_004's quality
scorer equals the shared structural score plus the claim's comment-length
variety adjustment (+0.1 at standard deviation ≥ 5, −0.15 below 3, +0.05 when
some comment has at most 5 words), clamped to [0,1]. -/
theorem quality_length_variety_adjustment (comments : List PlannedThreadComment)
    (postAuthorId : String) (h : 2 ≤ comments.length) :
    calculateThreadQuality comments postAuthorId =
      clamp01 (qualityStructureScore comments postAuthorId + lengthVarietyAdjClaim comments) := by
  unfold calculateThreadQuality lengthVarietyScore lengthVarietyAdjClaim
  rw [if_pos h]
  congr 1
  by_cases h1 : 25 ≤ commentWordVariance comments
  · have h2 : ¬ commentWordVariance comments < 9 := by linarith
    simp only [h1, h2, if_true, if_false, if_pos, if_neg, not_false_iff]
    ring
  · by_cases h2 : commentWordVariance comments < 9
    · simp only [h1, h2, if_true, if_false, if_pos, if_neg, not_false_iff]
      ring
    · simp only [h1, h2, if_true, if_false, if_pos, if_neg, not_false_iff]
      ring

/-- Witness for C10 at a concrete two-comment thread. -/
theorem quality_length_variety_adjustment_witness :
    2 ≤ ([⟨⟨"p1", "u1", "", true, false⟩, none, "hello world this is long", 0, false⟩,
          ⟨⟨"p2", "u2", "", true, false⟩, some 0, "ok", 600000, false⟩] :
        List PlannedThreadComment).length ∧
    calculateThreadQuality
        [⟨⟨"p1", "u1", "", true, false⟩, none, "hello world this is long", 0, false⟩,
         ⟨⟨"p2", "u2", "", true, false⟩, some 0, "ok", 600000, false⟩] "p0" =
      clamp01 (qualityStructureScore
          [⟨⟨"p1", "u1", "", true, false⟩, none, "hello world this is long", 0, false⟩,
           ⟨⟨"p2", "u2", "", true, false⟩, some 0, "ok", 600000, false⟩] "p0" +
        lengthVarietyAdjClaim
          [⟨⟨"p1", "u1", "", true, false⟩, none, "hello world this is long", 0, false⟩,
           ⟨⟨"p2", "u2", "", true, false⟩, some 0, "ok", 600000, false⟩]) :=
  ⟨by decide, quality_length_variety_adjustment _ "p0" (by decide)⟩

/-- Monotonicity of the prohibited-pattern risk term. -/
theorem termProhibited_mono {m n : Nat} (h : m ≤ n) : termProhibited m ≤ termProhibited n := by
  unfold termProhibited
  rcases Nat.eq_zero_or_pos m with hm | hm
  · subst hm
    simp only [lt_irrefl, if_false]
    split
    · positivity
    · exact le_refl 0
  · rw [if_pos hm, if_pos (lt_of_lt_of_le hm h)]
    have hmn : ((min m 3 : ℕ) : ℚ) ≤ ((min n 3 : ℕ) : ℚ) := by
      exact_mod_cast (by omega : min m 3 ≤ min n 3)
    nlinarith

/-- Monotonicity of the buzzword risk term. -/
theorem termBuzz_mono {m n : Nat} (h : m ≤ n) : termBuzz m ≤ termBuzz n := by
  unfold termBuzz
  rcases Nat.eq_zero_or_pos m with hm | hm
  · subst hm
    simp only [lt_irrefl, if_false]
    split
    · positivity
    · exact le_refl 0
  · rw [if_pos hm, if_pos (lt_of_lt_of_le hm h)]
    have hmn : ((min m 2 : ℕ) : ℚ) ≤ ((min n 2 : ℕ) : ℚ) := by
      exact_mod_cast (by omega : min m 2 ≤ min n 2)
    nlinarith

/-- Monotonicity of the dash risk term (0, 0.1, 0.2, then 0.25). -/
theorem termDash_mono {m n : Nat} (h : m ≤ n) : termDash m ≤ termDash n := by
  unfold termDash
  by_cases hm3 : 3 ≤ m
  · rw [if_pos hm3, if_pos (le_trans hm3 h)]
  · rw [if_neg hm3]
    by_cases hn3 : 3 ≤ n
    · rw [if_pos hn3]
      by_cases hm1 : 1 ≤ m
      · rw [if_pos hm1]
        have : (m : ℚ) ≤ 2 := by exact_mod_cast (by omega : m ≤ 2)
        nlinarith
      · rw [if_neg hm1]
        norm_num
    · rw [if_neg hn3]
      by_cases hm1 : 1 ≤ m
      · rw [if_pos hm1, if_pos (le_trans hm1 h)]
        have : (m : ℚ) ≤ (n : ℚ) := by exact_mod_cast h
        nlinarith
      · rw [if_neg hm1]
        by_cases hn1 : 1 ≤ n
        · rw [if_pos hn1]
          positivity
        · rw [if_neg hn1]

/-- Monotonicity of the product-mention saturation term. -/
theorem termMention_mono {r s : ℚ} (h : r ≤ s) : termMention r ≤ termMention s := by
  unfold termMention
  split_ifs <;> first | rfl | linarith

/-- Monotonicity of the final clamp. -/
theorem clamp01_mono {x y : ℚ} (h : x ≤ y) : clamp01 x ≤ clamp01 y :=
  max_le_max le_rfl (min_le_min le_rfl h)

/-- C7: the risk score is monotonically non-decreasing in the count of
prohibited-pattern texts, the count of buzzword texts, the total dash count
and the product-mention ratio, holding every other feature of the input
fixed. -/
theorem risk_monotone_in_features
    (cA cB : List PlannedThreadComment) (pidA pidB : String)
    (bA bB pA pB : Option String)
    (hpro : riskProhibitedCount cA bA ≤ riskProhibitedCount cB bB)
    (hbuzz : riskBuzzwordCount cA bA ≤ riskBuzzwordCount cB bB)
    (hdash : riskDashCount cA bA ≤ riskDashCount cB bB)
    (hment : riskMentionFraction cA bA pA ≤ riskMentionFraction cB bB pB)
    (hai : riskAiTotal cA = riskAiTotal cB)
    (hfill : riskFillerCount cA = riskFillerCount cB)
    (hpost : riskPostLongFlag bA = riskPostLongFlag bB)
    (hlong : riskLongCommentCount cA = riskLongCommentCount cB)
    (hform : riskFormalTotal cA bA = riskFormalTotal cB bB)
    (hauth : riskAuthTotal cA bA = riskAuthTotal cB bB)
    (hcoord : riskCoordFlag cA pidA pA = riskCoordFlag cB pidB pB)
    (hfish : riskFishingFlag cA pidA pA = riskFishingFlag cB pidB pB) :
    calculateRiskScore cA pidA bA pA ≤ calculateRiskScore cB pidB bB pB := by
  unfold calculateRiskScore
  rw [hai, hfill, hpost, hlong, hform, hauth, hcoord, hfish]
  apply clamp01_mono
  exact add_le_add (add_le_add (add_le_add (add_le_add (add_le_add (add_le_add (add_le_add
    (add_le_add (add_le_add (add_le_add (add_le_add
      (termProhibited_mono hpro) (termBuzz_mono hbuzz))
      le_rfl) le_rfl) le_rfl) le_rfl) le_rfl)
    (termDash_mono hdash)) le_rfl) (termMention_mono hment)) le_rfl) le_rfl

/-- Witness for C7: adding a double-hyphen comment to an empty thread raises
the dash count while leaving every other feature fixed, and the risk score
does not decrease. -/
theorem risk_monotone_in_features_witness :
    riskDashCount [] none ≤
      riskDashCount [⟨⟨"p2", "u2", "", true, false⟩, none, "x -- y", 0, false⟩] none ∧
    calculateRiskScore [] "a" none none ≤
      calculateRiskScore [⟨⟨"p2", "u2", "", true, false⟩, none, "x -- y", 0, false⟩]
        "a" none none :=
  ⟨by decide,
   risk_monotone_in_features [] [⟨⟨"p2", "u2", "", true, false⟩, none, "x -- y", 0, false⟩]
     "a" "a" none none none none
     (by decide) (by decide) (by decide) (by norm_num [riskMentionFraction, truthyStr])
     (by decide) (by decide) (by decide) (by decide) (by decide) (by decide)
     (by decide) (by decide)⟩

/-- The second component of an enumerated entry is a member of the list. -/
theorem enum_snd_mem {α : Type} (l : List α) (x : Nat × α) (hx : x ∈ l.enum) : x.2 ∈ l := by
  obtain ⟨i, a⟩ := x
  rw [List.enum_eq_zip_range] at hx
  exact (List.of_mem_zip hx).2

/-- Every member of a list appears in its enumeration at some index. -/
theorem enum_mem_of_mem {α : Type} (l : List α) (a : α) (ha : a ∈ l) :
    ∃ j, (j, a) ∈ l.enum := by
  obtain ⟨i, hi, hget⟩ := List.mem_iff_getElem.1 ha
  refine ⟨i, List.mk_mem_enum_iff_getElem?.2 ?_⟩
  rw [List.getElem?_eq_getElem hi, hget]

/-- The per-slot scored list has one entry per active subreddit. -/
theorem scoreSubreddits_length (active : List Subreddit) (existing : List PlannedPost)
    (selected : List SubredditSelection) (rand : Nat → ℚ) (base : Nat) :
    (scoreSubreddits active existing selected rand base).length = active.length := by
  simp [scoreSubreddits]

/-- For a non-empty active pool, the per-slot sort has a head. -/
theorem sorted_head_exists (active : List Subreddit) (existing : List PlannedPost)
    (selected : List SubredditSelection) (rand : Nat → ℚ) (base : Nat)
    (hne : active ≠ []) :
    ∃ x, ((scoreSubreddits active existing selected rand base).mergeSort
      (fun a b => decide (b.score ≤ a.score))).head? = some x := by
  have hlen : ((scoreSubreddits active existing selected rand base).mergeSort
      (fun a b => decide (b.score ≤ a.score))).length = active.length :=
    ((scoreSubreddits active existing selected rand base).mergeSort_perm _).length_eq.trans
      (scoreSubreddits_length active existing selected rand base)
  cases h : (scoreSubreddits active existing selected rand base).mergeSort
      (fun a b => decide (b.score ≤ a.score)) with
  | nil =>
    rw [h] at hlen
    exact absurd (List.length_eq_zero.1 hlen.symm) hne
  | cons a t => exact ⟨a, rfl⟩

/-- One unfolding step of the slot loop, given the head of the sorted list. -/
theorem selectSlots_step (active : List Subreddit) (existing : List PlannedPost)
    (rand : Nat → ℚ) (i n : Nat) (acc : List SubredditSelection) (x : ScoredSubreddit)
    (hx : ((scoreSubreddits active existing acc rand (i * active.length)).mergeSort
      (fun a b => decide (b.score ≤ a.score))).head? = some x) :
    selectSlots active existing rand i (n + 1) acc =
      selectSlots active existing rand (i + 1) n (acc ++ [⟨x.subreddit, x.reason⟩]) := by
  rw [selectSlots]
  simp only [hx]

/-- Characterization of the per-slot scored entries. -/
theorem scoreSubreddits_mem (active : List Subreddit) (existing : List PlannedPost)
    (selected : List SubredditSelection) (rand : Nat → ℚ) (base : Nat)
    (x : ScoredSubreddit)
    (hx : x ∈ scoreSubreddits active existing selected rand base) :
    ∃ j s, (j, s) ∈ active.enum ∧
      x = ⟨s, 100 - 30 * (subredditTotalCount existing selected s.name : ℚ) +
        rand (base + j) * 20,
        if subredditTotalCount existing selected s.name == 0 then "fresh_subreddit"
        else "available"⟩ := by
  unfold scoreSubreddits at hx
  obtain ⟨⟨j, s⟩, hjs, heq⟩ := List.mem_map.1 hx
  exact ⟨j, s, hjs, heq.symm⟩

/-- The slot loop appends exactly one selection per slot, and every selection
beyond the accumulator is an active subreddit. -/
theorem selectSlots_ok (active : List Subreddit) (existing : List PlannedPost)
    (rand : Nat → ℚ) (hne : active ≠ []) :
    ∀ (n i : Nat) (acc : List SubredditSelection),
      (selectSlots active existing rand i n acc).length = acc.length + n ∧
      ∀ s ∈ selectSlots active existing rand i n acc, s ∈ acc ∨ s.subreddit ∈ active := by
  intro n
  induction n with
  | zero =>
    intro i acc
    exact ⟨rfl, fun s hs => Or.inl hs⟩
  | succ n ih =>
    intro i acc
    obtain ⟨x, hx⟩ := sorted_head_exists active existing acc rand (i * active.length) hne
    rw [selectSlots_step active existing rand i n acc x hx]
    obtain ⟨hlen, hmem⟩ := ih (i + 1) (acc ++ [⟨x.subreddit, x.reason⟩])
    have hxs : x.subreddit ∈ active := by
      have hmem2 := (mergeSort_head_max (fun y : ScoredSubreddit => y.score) _ x hx).1
      obtain ⟨j, s, hjs, hxeq⟩ := scoreSubreddits_mem active existing acc rand
        (i * active.length) x hmem2
      rw [hxeq]
      exact enum_snd_mem active (j, s) hjs
    refine ⟨by rw [hlen]; simp; omega, fun s hs => ?_⟩
    rcases hmem s hs with h | h
    · rcases List.mem_append.1 h with h2 | h2
      · exact Or.inl h2
      · rcases List.mem_singleton.1 h2 with rfl
        exact Or.inr hxs
    · exact Or.inr h

/-- C5: selectSubredditsForWeek fails with the no-eligible-forums error iff no
input forum is active; otherwise it returns exactly `postsPerWeek` ordered
selections, each of which is an active input forum (so with exactly one active
forum every selection is that forum). -/
theorem selectSubreddits_spec (subreddits : List Subreddit) (postsPerWeek : Nat)
    (existing : List PlannedPost) (rand : Nat → ℚ) :
    (selectSubredditsForWeek subreddits postsPerWeek existing rand =
        Except.error "No active subreddits available" ↔
      subreddits.filter (fun s => s.is_active) = []) ∧
    ∀ l, selectSubredditsForWeek subreddits postsPerWeek existing rand = Except.ok l →
      l.length = postsPerWeek ∧
      ∀ s ∈ l, s.subreddit ∈ subreddits.filter (fun x => x.is_active) := by
  by_cases h : (subreddits.filter (fun s => s.is_active)).isEmpty
  · unfold selectSubredditsForWeek
    rw [if_pos h]
    refine ⟨⟨fun _ => List.isEmpty_iff.1 h, fun _ => rfl⟩, fun l hl => absurd hl (by simp)⟩
  · have hne : subreddits.filter (fun s => s.is_active) ≠ [] := by
      intro hc
      exact h (by rw [hc]; rfl)
    unfold selectSubredditsForWeek
    rw [if_neg (by simpa using h)]
    refine ⟨⟨fun hc => absurd hc (by simp), fun hc => absurd hc hne⟩, fun l hl => ?_⟩
    have hl2 : selectSlots (subreddits.filter (fun s => s.is_active)) existing rand 0
        postsPerWeek [] = l := Except.ok.inj hl
    obtain ⟨hlen, hmem⟩ := selectSlots_ok (subreddits.filter (fun s => s.is_active))
      existing rand hne postsPerWeek 0 []
    rw [← hl2]
    refine ⟨by simpa using hlen, fun s hs => ?_⟩
    rcases hmem s hs with h2 | h2
    · exact absurd h2 (List.not_mem_nil s)
    · exact h2

/-- Witness for C5 at a concrete input: one active forum, two slots — no
error, and both selections are that forum. -/
theorem selectSubreddits_spec_witness :
    ([(⟨"a", true⟩ : Subreddit)].filter (fun s => s.is_active) ≠ []) ∧
    (selectSubredditsForWeek [⟨"a", true⟩] 2 [] (fun _ => 0) =
      Except.ok [⟨⟨"a", true⟩, "fresh_subreddit"⟩, ⟨⟨"a", true⟩, "available"⟩]) ∧
    ([(⟨⟨"a", true⟩, "fresh_subreddit"⟩ : SubredditSelection),
      ⟨⟨"a", true⟩, "available"⟩].length = 2 ∧
     ∀ s ∈ [(⟨⟨"a", true⟩, "fresh_subreddit"⟩ : SubredditSelection),
        ⟨⟨"a", true⟩, "available"⟩],
       s.subreddit ∈ [(⟨"a", true⟩ : Subreddit)].filter (fun x => x.is_active)) := by
  refine ⟨by decide, by with_unfolding_all decide, ?_⟩
  exact (selectSubreddits_spec [⟨"a", true⟩] 2 [] (fun _ => 0)).2
    [⟨⟨"a", true⟩, "fresh_subreddit"⟩, ⟨⟨"a", true⟩, "available"⟩]
    (by with_unfolding_all decide)

/-- A selection name is absent from an accumulator exactly when its filtered
count there is zero. -/
theorem count_zero_iff_not_mem_names (acc : List SubredditSelection) (name : String) :
    (acc.filter (fun t => t.subreddit.name == name)).length = 0 ↔
      name ∉ acc.map (fun t => t.subreddit.name) := by
  rw [List.length_eq_zero, List.filter_eq_nil_iff]
  constructor
  · intro h hmem
    obtain ⟨t, ht, hname⟩ := List.mem_map.1 hmem
    exact h t ht (by simp [hname])
  · intro h t ht hp
    exact h (List.mem_map.2 ⟨t, ht, by simpa using hp⟩)

/-- When some active forum is fresh (running count 0), the slot winner is a
fresh active forum: a fresh forum scores at least 100 while a used one scores
strictly below 90 for any jitter in [0, 1). -/
theorem slot_picks_fresh (active : List Subreddit) (existing : List PlannedPost)
    (acc : List SubredditSelection) (rand : Nat → ℚ) (base : Nat)
    (HR : ∀ n, 0 ≤ rand n ∧ rand n < 1) (x : ScoredSubreddit)
    (hx : ((scoreSubreddits active existing acc rand base).mergeSort
      (fun a b => decide (b.score ≤ a.score))).head? = some x)
    (f : Subreddit) (hf : f ∈ active)
    (hf0 : subredditTotalCount existing acc f.name = 0) :
    x.subreddit ∈ active ∧ subredditTotalCount existing acc x.subreddit.name = 0 := by
  obtain ⟨hmem, hmax⟩ := mergeSort_head_max (fun y : ScoredSubreddit => y.score) _ x hx
  obtain ⟨j, s, hjs, hxeq⟩ := scoreSubreddits_mem active existing acc rand base x hmem
  obtain ⟨jf, hjf⟩ := enum_mem_of_mem active f hf
  have hfent : (⟨f, 100 - 30 * (subredditTotalCount existing acc f.name : ℚ) +
      rand (base + jf) * 20,
      if subredditTotalCount existing acc f.name == 0 then "fresh_subreddit"
      else "available"⟩ : ScoredSubreddit) ∈ scoreSubreddits active existing acc rand base := by
    unfold scoreSubreddits
    exact List.mem_map.2 ⟨(jf, f), hjf, rfl⟩
  have hle := hmax _ hfent
  constructor
  · rw [hxeq]
    exact enum_snd_mem active (j, s) hjs
  · rw [hxeq]
    by_contra hc
    have hc1 : 1 ≤ subredditTotalCount existing acc s.name := Nat.one_le_iff_ne_zero.2 hc
    rw [hxeq] at hle
    simp only [hf0, Nat.cast_zero] at hle
    have hr1 := (HR (base + jf)).1
    have hr2 := (HR (base + j)).2
    have hcast : (1 : ℚ) ≤ (subredditTotalCount existing acc s.name : ℚ) := by
      exact_mod_cast hc1
    nlinarith

/-- With pairwise-distinct active names and every active forum initially
unused, the slot loop keeps the selected names distinct as long as slots
remain within the pool size. -/
theorem selectSlots_fresh_nodup (active : List Subreddit) (existing : List PlannedPost)
    (rand : Nat → ℚ) (HR : ∀ n, 0 ≤ rand n ∧ rand n < 1)
    (hnodup : (active.map (fun s => s.name)).Nodup)
    (hex : ∀ s ∈ active, (existing.filter (fun p => p.subreddit_name == s.name)).length = 0) :
    ∀ (n i : Nat) (acc : List SubredditSelection),
      ((acc.map (fun t => t.subreddit.name)).Nodup) →
      (∀ t ∈ acc, t.subreddit.name ∈ active.map (fun s => s.name)) →
      acc.length + n ≤ active.length →
      ((selectSlots active existing rand i n acc).map (fun t => t.subreddit.name)).Nodup ∧
      (∀ t ∈ selectSlots active existing rand i n acc,
        t.subreddit.name ∈ active.map (fun s => s.name)) := by
  intro n
  induction n with
  | zero => intro i acc ha1 ha2 _; exact ⟨ha1, ha2⟩
  | succ n ih =>
    intro i acc ha1 ha2 hlen
    have hane : active ≠ [] := by
      intro hc
      rw [hc] at hlen
      simp at hlen
    have hsub : ∃ s ∈ active, s.name ∉ acc.map (fun t => t.subreddit.name) := by
      by_contra hc
      push_neg at hc
      have hsubset : (active.map (fun s => s.name)) ⊆ acc.map (fun t => t.subreddit.name) := by
        intro nm hnm
        obtain ⟨s, hs, hrfl⟩ := List.mem_map.1 hnm
        exact hrfl ▸ hc s hs
      have hle := (List.Nodup.subperm hnodup hsubset).length_le
      simp only [List.length_map] at hle
      omega
    obtain ⟨f, hf, hfnam⟩ := hsub
    have hf0 : subredditTotalCount existing acc f.name = 0 := by
      unfold subredditTotalCount
      rw [hex f hf, (count_zero_iff_not_mem_names acc f.name).2 hfnam]
    obtain ⟨x, hx⟩ := sorted_head_exists active existing acc rand (i * active.length) hane
    obtain ⟨hxmem, hx0⟩ := slot_picks_fresh active existing acc rand (i * active.length)
      HR x hx f hf hf0
    have hxnam : x.subreddit.name ∉ acc.map (fun t => t.subreddit.name) := by
      apply (count_zero_iff_not_mem_names acc x.subreddit.name).1
      unfold subredditTotalCount at hx0
      omega
    rw [selectSlots_step active existing rand i n acc x hx]
    apply ih (i + 1)
    · rw [List.map_append]
      exact List.Nodup.append ha1 (List.nodup_singleton _)
        (by simpa using List.disjoint_singleton.2 hxnam)
    · intro t ht
      rcases List.mem_append.1 ht with h | h
      · exact ha2 t h
      · rcases List.mem_singleton.1 h with rfl
        exact List.mem_map.2 ⟨x.subreddit, hxmem, rfl⟩
    · rw [List.length_append]
      simp only [List.length_singleton]
      omega

/-- C4: with exactly 3 active forums of pairwise-distinct names, none of which
has an existing post this week, and 3 requested slots, every random outcome in
[0,1) selects each forum exactly once: the returned names are a permutation of
the three forum names. -/
theorem selectSubreddits_three_fresh (s1 s2 s3 : Subreddit) (existing : List PlannedPost)
    (rand : Nat → ℚ) (HR : ∀ n, 0 ≤ rand n ∧ rand n < 1)
    (h1 : s1.is_active = true) (h2 : s2.is_active = true) (h3 : s3.is_active = true)
    (hd12 : s1.name ≠ s2.name) (hd13 : s1.name ≠ s3.name) (hd23 : s2.name ≠ s3.name)
    (hf1 : (existing.filter (fun p => p.subreddit_name == s1.name)).length = 0)
    (hf2 : (existing.filter (fun p => p.subreddit_name == s2.name)).length = 0)
    (hf3 : (existing.filter (fun p => p.subreddit_name == s3.name)).length = 0) :
    ∃ l, selectSubredditsForWeek [s1, s2, s3] 3 existing rand = Except.ok l ∧
      (l.map (fun t => t.subreddit.name)).Perm [s1.name, s2.name, s3.name] := by
  have hact : ([s1, s2, s3] : List Subreddit).filter (fun s => s.is_active) = [s1, s2, s3] := by
    simp [List.filter, h1, h2, h3]
  have hane : ([s1, s2, s3] : List Subreddit) ≠ [] := by simp
  have hnodup : (([s1, s2, s3] : List Subreddit).map (fun s => s.name)).Nodup := by
    simp [hd12, hd13, hd23]
  have hex : ∀ s ∈ ([s1, s2, s3] : List Subreddit),
      (existing.filter (fun p => p.subreddit_name == s.name)).length = 0 := by
    intro s hs
    rcases List.mem_cons.1 hs with rfl | hs
    · exact hf1
    rcases List.mem_cons.1 hs with rfl | hs
    · exact hf2
    rcases List.mem_singleton.1 hs with rfl
    exact hf3
  refine ⟨selectSlots [s1, s2, s3] existing rand 0 3 [], ?_, ?_⟩
  · unfold selectSubredditsForWeek
    rw [hact]
    rfl
  · obtain ⟨hnd, hmem⟩ := selectSlots_fresh_nodup [s1, s2, s3] existing rand HR hnodup hex
      3 0 [] (by simp) (by simp) (by simp)
    have hlen3 : (selectSlots [s1, s2, s3] existing rand 0 3 []).length = 3 := by
      simpa using (selectSlots_ok [s1, s2, s3] existing rand hane 3 0 []).1
    have hsubset : ((selectSlots [s1, s2, s3] existing rand 0 3 []).map
        (fun t => t.subreddit.name)) ⊆ [s1.name, s2.name, s3.name] := by
      intro nm hnm
      obtain ⟨t, ht, hrfl⟩ := List.mem_map.1 hnm
      have := hmem t ht
      simp only [List.map_cons, List.map_nil] at this
      exact hrfl ▸ this
    exact (List.Nodup.subperm hnd hsubset).perm_of_length_le (by simp [hlen3])

/-- Witness for C4 at three concrete fresh forums with the zero jitter
stream. -/
theorem selectSubreddits_three_fresh_witness :
    ∃ l, selectSubredditsForWeek [⟨"a", true⟩, ⟨"b", true⟩, ⟨"c", true⟩] 3 [] (fun _ => 0) =
        Except.ok l ∧
      (l.map (fun t => t.subreddit.name)).Perm ["a", "b", "c"] :=
  selectSubreddits_three_fresh ⟨"a", true⟩ ⟨"b", true⟩ ⟨"c", true⟩ [] (fun _ => 0)
    (fun _ => ⟨le_refl 0, by norm_num⟩)
    (by decide) (by decide) (by decide) (by decide) (by decide) (by decide)
    (by decide) (by decide) (by decide)

/-- A ten-or-nothing bonus is non-negative. -/
theorem ite_ten_nonneg (b : Bool) : 0 ≤ (if b then (10 : ℚ) else 0) := by
  cases b <;> norm_num

/-- Each per-role bonus is non-negative. -/
theorem roleBonus_nonneg (b s : String) (rk : String × List String) :
    0 ≤ roleBonus b s rk :=
  ite_ten_nonneg _

/-- The relevance score is never negative: both the substring bonus and the
role bonuses are non-negative and the cap keeps the sign. -/
theorem calculateRelevanceScore_nonneg (p : Persona) (s : Subreddit) :
    0 ≤ calculateRelevanceScore p s := by
  unfold calculateRelevanceScore
  split
  · exact le_refl 0
  · apply le_min _ (by norm_num)
    apply add_nonneg
    · split <;> norm_num
    · apply List.sum_nonneg
      intro x hx
      obtain ⟨rk, _, hrk⟩ := List.mem_map.1 hx
      exact hrk ▸ roleBonus_nonneg _ _ _

/-- Every scored author candidate comes from the candidate list, and a
non-negative score certifies it is under the weekly post cap (capped
candidates are scored −1). -/
theorem scorePostCandidates_sound (subreddit : Subreddit) (posts : List PlannedPost)
    (rand : Nat → ℚ) (l : List Persona) :
    ∀ (k : Nat) (x : ScoredPersona), x ∈ scorePostCandidates subreddit posts rand l k →
      x.persona ∈ l ∧
      (0 ≤ x.score → postsThisWeekFor posts x.persona.id < DEFAULT_MAX_POSTS_PER_WEEK) := by
  induction l with
  | nil => intro k x hx; exact absurd hx (by simp [scorePostCandidates])
  | cons p rest ih =>
    intro k x hx
    unfold scorePostCandidates at hx
    by_cases hcap : DEFAULT_MAX_POSTS_PER_WEEK ≤ postsThisWeekFor posts p.id
    · rw [if_pos hcap] at hx
      rcases List.mem_cons.1 hx with rfl | hx2
      · exact ⟨List.mem_cons_self p rest, fun h0 => absurd h0 (by norm_num)⟩
      · obtain ⟨hm, hs⟩ := ih k x hx2
        exact ⟨List.mem_cons_of_mem p hm, hs⟩
    · rw [if_neg hcap] at hx
      rcases List.mem_cons.1 hx with rfl | hx2
      · exact ⟨List.mem_cons_self p rest, fun _ => lt_of_not_le hcap⟩
      · obtain ⟨hm, hs⟩ := ih (k + 1) x hx2
        exact ⟨List.mem_cons_of_mem p hm, hs⟩

/-- Conversely, an under-cap candidate always contributes a non-negatively
scored entry (its base 100 − 25×posts plus non-negative relevance and
jitter stays at least 75). -/
theorem scorePostCandidates_complete (subreddit : Subreddit) (posts : List PlannedPost)
    (rand : Nat → ℚ) (HR : ∀ n, 0 ≤ rand n) (l : List Persona) :
    ∀ (k : Nat) (p : Persona), p ∈ l →
      postsThisWeekFor posts p.id < DEFAULT_MAX_POSTS_PER_WEEK →
      ∃ x ∈ scorePostCandidates subreddit posts rand l k, 0 ≤ x.score := by
  induction l with
  | nil => intro k p hp; exact absurd hp (List.not_mem_nil p)
  | cons q rest ih =>
    intro k p hp hlt
    rcases List.mem_cons.1 hp with rfl | hp2
    · refine ⟨⟨p, 100 - 25 * (postsThisWeekFor posts p.id : ℚ) +
        calculateRelevanceScore p subreddit + rand k * 15,
        if 10 < calculateRelevanceScore p subreddit then "topic_match" else "available"⟩,
        ?_, ?_⟩
      · unfold scorePostCandidates
        rw [if_neg (not_le.2 hlt)]
        exact List.mem_cons_self _ _
      · have hc : (postsThisWeekFor posts p.id : ℚ) ≤ 1 := by
          exact_mod_cast Nat.lt_succ_iff.1 hlt
        have hrel := calculateRelevanceScore_nonneg p subreddit
        have hr := HR k
        show 0 ≤ 100 - 25 * (postsThisWeekFor posts p.id : ℚ) +
          calculateRelevanceScore p subreddit + rand k * 15
        nlinarith
    · by_cases hcap : DEFAULT_MAX_POSTS_PER_WEEK ≤ postsThisWeekFor posts q.id
      · obtain ⟨x, hx, hs⟩ := ih k p hp2 hlt
        refine ⟨x, ?_, hs⟩
        unfold scorePostCandidates
        rw [if_pos hcap]
        exact List.mem_cons_of_mem _ hx
      · obtain ⟨x, hx, hs⟩ := ih (k + 1) p hp2 hlt
        refine ⟨x, ?_, hs⟩
        unfold scorePostCandidates
        rw [if_neg hcap]
        exact List.mem_cons_of_mem _ hx

/-- C6 (amended): selectPostAuthor returns null iff no persona qualifies — the
active list is empty, or there is no active operator and every active persona
is at or above the weekly post cap of 2; otherwise, for every random outcome,
it returns some active persona that is an operator or is under the cap. (The
original claim required the returned persona to be under the cap even in the
operator case.) -/
theorem selectPostAuthor_spec (personas : List Persona) (subreddit : Subreddit)
    (posts : List PlannedPost) (comments : List PlannedComment)
    (rand : Nat → ℚ) (HR : ∀ n, 0 ≤ rand n ∧ rand n < 1) :
    (selectPostAuthor personas subreddit posts comments rand = none ↔
      (personas.filter (fun p => p.is_active) = [] ∨
        ((∀ p ∈ personas.filter (fun p => p.is_active), p.is_operator = false) ∧
         (∀ p ∈ personas.filter (fun p => p.is_active),
           DEFAULT_MAX_POSTS_PER_WEEK ≤ postsThisWeekFor posts p.id)))) ∧
    (∀ sel, selectPostAuthor personas subreddit posts comments rand = some sel →
      sel.persona ∈ personas.filter (fun p => p.is_active) ∧
      (sel.persona.is_operator = true ∨
        postsThisWeekFor posts sel.persona.id < DEFAULT_MAX_POSTS_PER_WEEK)) := by
  by_cases hae : (personas.filter (fun p => p.is_active)).isEmpty
  · constructor
    · unfold selectPostAuthor
      rw [if_pos hae]
      simp only [true_iff]
      exact Or.inl (List.isEmpty_iff.1 hae)
    · intro sel hsel
      unfold selectPostAuthor at hsel
      rw [if_pos hae] at hsel
      exact absurd hsel (by simp)
  · have hane : personas.filter (fun p => p.is_active) ≠ [] := by
      intro hc
      exact hae (by rw [hc]; rfl)
    cases hop : (personas.filter (fun p => p.is_active)).find? (fun p => p.is_operator) with
    | some q =>
      have hq1 := List.find?_some hop
      have hq2 := List.mem_of_find?_eq_some hop
      constructor
      · unfold selectPostAuthor
        simp only [hae, Bool.false_eq_true, if_false, hop]
        constructor
        · intro hc
          exact absurd hc (by simp)
        · intro hc
          rcases hc with hc | hc
          · exact absurd hc hane
          · exact absurd hq1 (by rw [hc.1 q hq2]; simp)
      · intro sel hsel
        unfold selectPostAuthor at hsel
        simp only [hae, Bool.false_eq_true, if_false, hop, Option.some.injEq] at hsel
        rw [← hsel]
        exact ⟨hq2, Or.inl hq1⟩
    | none =>
      have hnoop := List.find?_eq_none.1 hop
      constructor
      · unfold selectPostAuthor
        simp only [hae, Bool.false_eq_true, if_false, hop]
        constructor
        · intro hc
          refine Or.inr ⟨fun p hp => ?_, fun p hp => ?_⟩
          · exact (Bool.not_eq_true _).mp (hnoop p hp)
          · by_contra hlt
            obtain ⟨x, hx, hs⟩ := scorePostCandidates_complete subreddit posts rand
              (fun n => (HR n).1) (personas.filter (fun r => r.is_active)) 0 p hp
              (lt_of_not_le hlt)
            have hxf : x ∈ (scorePostCandidates subreddit posts rand
                (personas.filter (fun r => r.is_active)) 0).filter
                (fun s => 0 ≤ s.score) :=
              List.mem_filter.2 ⟨hx, by simpa using hs⟩
            rcases hh : ((scorePostCandidates subreddit posts rand
                (personas.filter (fun r => r.is_active)) 0).filter
                (fun s => 0 ≤ s.score)).mergeSort (fun a b => decide (b.score ≤ a.score)) with
              _ | ⟨y, ys⟩
            · have hperm := List.mergeSort_perm ((scorePostCandidates subreddit posts rand
                (personas.filter (fun r => r.is_active)) 0).filter
                (fun s => 0 ≤ s.score)) (fun a b => decide (b.score ≤ a.score))
              rw [hh] at hperm
              exact absurd (hperm.symm.subset hxf) (List.not_mem_nil x)
            · rw [hh] at hc
              exact absurd hc (by simp)
        · intro hc
          rcases hc with hc | hc
          · exact absurd hc hane
          · rcases hh : ((scorePostCandidates subreddit posts rand
                (personas.filter (fun r => r.is_active)) 0).filter
                (fun s => 0 ≤ s.score)).mergeSort (fun a b => decide (b.score ≤ a.score)) with
              _ | ⟨y, ys⟩
            · rw [hh]
              rfl
            · have hymem : y ∈ (scorePostCandidates subreddit posts rand
                  (personas.filter (fun r => r.is_active)) 0).filter
                  (fun s => 0 ≤ s.score) := by
                have hperm := List.mergeSort_perm ((scorePostCandidates subreddit posts rand
                  (personas.filter (fun r => r.is_active)) 0).filter
                  (fun s => 0 ≤ s.score)) (fun a b => decide (b.score ≤ a.score))
                rw [hh] at hperm
                exact hperm.subset (List.mem_cons_self y ys)
              obtain ⟨hy1, hy2⟩ := List.mem_filter.1 hymem
              obtain ⟨hmem2, hs2⟩ := scorePostCandidates_sound subreddit posts rand
                (personas.filter (fun r => r.is_active)) 0 y hy1
              exact absurd (hc.2 y.persona hmem2) (not_le.2 (hs2 (by simpa using hy2)))
      · intro sel hsel
        unfold selectPostAuthor at hsel
        simp only [hae, Bool.false_eq_true, if_false, hop] at hsel
        rcases hh : ((scorePostCandidates subreddit posts rand
            (personas.filter (fun r => r.is_active)) 0).filter
            (fun s => 0 ≤ s.score)).mergeSort (fun a b => decide (b.score ≤ a.score)) with
          _ | ⟨y, ys⟩
        · rw [hh] at hsel
          exact absurd hsel (by simp)
        · rw [hh] at hsel
          simp only [List.head?_cons, Option.some.injEq] at hsel
          have hymem : y ∈ (scorePostCandidates subreddit posts rand
              (personas.filter (fun r => r.is_active)) 0).filter
              (fun s => 0 ≤ s.score) := by
            have hperm := List.mergeSort_perm ((scorePostCandidates subreddit posts rand
              (personas.filter (fun r => r.is_active)) 0).filter
              (fun s => 0 ≤ s.score)) (fun a b => decide (b.score ≤ a.score))
            rw [hh] at hperm
            exact hperm.subset (List.mem_cons_self y ys)
          obtain ⟨hy1, hy2⟩ := List.mem_filter.1 hymem
          obtain ⟨hmem2, hs2⟩ := scorePostCandidates_sound subreddit posts rand
            (personas.filter (fun r => r.is_active)) 0 y hy1
          rw [← hsel]
          exact ⟨hmem2, Or.inr (hs2 (by simpa using hy2))⟩

/-- C6 (counterexample): a lone active operator already at the 2-post cap is
still selected, so the original claim's requirement that a returned persona be
under the cap fails. -/
theorem selectPostAuthor_operator_at_cap_cex :
    selectPostAuthor [⟨"p1", "op", "", true, true⟩] ⟨"x", true⟩
      [⟨"x", "p1"⟩, ⟨"x", "p1"⟩] [] (fun _ => 0) =
      some ⟨⟨"p1", "op", "", true, true⟩, "operator"⟩ ∧
    ¬ postsThisWeekFor [⟨"x", "p1"⟩, ⟨"x", "p1"⟩] "p1" < DEFAULT_MAX_POSTS_PER_WEEK :=
  ⟨by decide, by decide⟩

/-- Witness for C6's amended theorem: a single under-cap active non-operator
persona is selected (the result is not null). -/
theorem selectPostAuthor_spec_witness :
    selectPostAuthor [⟨"p2", "u2", "", true, false⟩] ⟨"x", true⟩ [] [] (fun _ => 0) ≠
      none := by
  have h := (selectPostAuthor_spec [⟨"p2", "u2", "", true, false⟩] ⟨"x", true⟩ [] []
    (fun _ => 0) (fun _ => ⟨le_refl 0, by norm_num⟩)).1
  intro hc
  rcases h.1 hc with h2 | h2
  · exact absurd h2 (by decide)
  · exact absurd (h2.2 ⟨"p2", "u2", "", true, false⟩ (by decide)) (by decide)

/-- Every scored commenter candidate comes from the candidate list, and a
non-negative score certifies it is under the weekly comment cap. -/
theorem scoreCommentCandidates_sound (comments : List PlannedComment) (rand : Nat → ℚ)
    (l : List Persona) :
    ∀ (k : Nat) (x : ScoredPersona), x ∈ (scoreCommentCandidates comments rand l k).1 →
      x.persona ∈ l ∧
      (0 ≤ x.score →
        commentsThisWeekFor comments x.persona.id < DEFAULT_MAX_COMMENTS_PER_WEEK) := by
  induction l with
  | nil => intro k x hx; exact absurd hx (by simp [scoreCommentCandidates])
  | cons p rest ih =>
    intro k x hx
    by_cases hcap : DEFAULT_MAX_COMMENTS_PER_WEEK ≤ commentsThisWeekFor comments p.id
    · simp only [scoreCommentCandidates] at hx
      rw [if_pos hcap] at hx
      rcases List.mem_cons.1 hx with rfl | hx2
      · exact ⟨List.mem_cons_self p rest, fun h0 => absurd h0 (by norm_num)⟩
      · obtain ⟨hm, hs⟩ := ih k x hx2
        exact ⟨List.mem_cons_of_mem p hm, hs⟩
    · simp only [scoreCommentCandidates] at hx
      rw [if_neg hcap] at hx
      rcases List.mem_cons.1 hx with rfl | hx2
      · exact ⟨List.mem_cons_self p rest, fun _ => lt_of_not_le hcap⟩
      · obtain ⟨hm, hs⟩ := ih (k + 1) x hx2
        exact ⟨List.mem_cons_of_mem p hm, hs⟩

/-- The non-negatively scored commenter candidates are exactly the under-cap
candidates: same count. -/
theorem scoreCommentCandidates_filter_length (comments : List PlannedComment)
    (rand : Nat → ℚ) (HR : ∀ n, 0 ≤ rand n) (l : List Persona) :
    ∀ k, ((scoreCommentCandidates comments rand l k).1.filter
        (fun s => 0 ≤ s.score)).length =
      (l.filter (fun p =>
        commentsThisWeekFor comments p.id < DEFAULT_MAX_COMMENTS_PER_WEEK)).length := by
  induction l with
  | nil => intro k; simp [scoreCommentCandidates]
  | cons p rest ih =>
    intro k
    by_cases hcap : DEFAULT_MAX_COMMENTS_PER_WEEK ≤ commentsThisWeekFor comments p.id
    · simp only [scoreCommentCandidates]
      rw [if_pos hcap, List.filter_cons, List.filter_cons]
      have h1 : (decide ((0:ℚ) ≤
          (⟨p, -1, "at_max_comments"⟩ : ScoredPersona).score)) = false :=
        decide_eq_false (by norm_num)
      have h2 : (decide (commentsThisWeekFor comments p.id <
          DEFAULT_MAX_COMMENTS_PER_WEEK)) = false :=
        decide_eq_false (not_lt.2 hcap)
      rw [h1, h2]
      simp only [Bool.false_eq_true, if_false]
      exact ih k
    · simp only [scoreCommentCandidates]
      rw [if_neg hcap, List.filter_cons, List.filter_cons]
      have hscore : (0:ℚ) ≤ 100 - 5 * (commentsThisWeekFor comments p.id : ℚ) + rand k * 30 := by
        have hc : (commentsThisWeekFor comments p.id : ℚ) ≤ 9 := by
          exact_mod_cast Nat.lt_succ_iff.1 (lt_of_not_le hcap)
        have hr := HR k
        nlinarith
      have h1 : (decide ((0:ℚ) ≤ (⟨p, 100 - 5 * (commentsThisWeekFor comments p.id : ℚ) +
          rand k * 30, "available"⟩ : ScoredPersona).score)) = true :=
        decide_eq_true hscore
      have h2 : (decide (commentsThisWeekFor comments p.id <
          DEFAULT_MAX_COMMENTS_PER_WEEK)) = true :=
        decide_eq_true (lt_of_not_le hcap)
      rw [h1, h2]
      simp only [if_true, List.length_cons]
      exact congrArg Nat.succ (ih (k + 1))

/-- The randomized realized count `⌊3·random⌋ + 2` never exceeds 4 for a draw
in [0, 1). -/
theorem floor_draw_le_four (r : ℚ) (h0 : 0 ≤ r) (h1 : r < 1) :
    (3 * r).floor.toNat + 2 ≤ 4 := by
  have h3 : ¬ ((3:ℤ) ≤ (3 * r).floor) := by
    intro hc
    rw [Rat.le_floor] at hc
    push_cast at hc
    nlinarith
  omega

/-- selectCommenters either returns the base list, or the base list with the
post author appended once at the end with reason author_reply, the latter only
when the author is under the comment cap. -/
theorem selectCommenters_split (personas : List Persona) (postAuthorId : String)
    (posts : List PlannedPost) (comments : List PlannedComment)
    (target : Nat) (rand : Nat → ℚ) :
    selectCommenters personas postAuthorId posts comments target rand =
      commenterBase personas postAuthorId comments target rand ∨
    ∃ pa : Persona,
      selectCommenters personas postAuthorId posts comments target rand =
        commenterBase personas postAuthorId comments target rand ++
          [⟨pa, "author_reply"⟩] ∧
      pa.id = postAuthorId ∧
      commentsThisWeekFor comments postAuthorId < DEFAULT_MAX_COMMENTS_PER_WEEK := by
  simp only [selectCommenters, commenterBase]
  split
  · split
    · rename_i pa hfind
      split
      · rename_i hcap
        have hb0 := List.find?_some hfind
        have hbeq : pa.id = postAuthorId := by simpa using hb0
        exact Or.inr ⟨pa, rfl, hbeq, hcap⟩
      · exact Or.inl rfl
    · exact Or.inl rfl
  · exact Or.inl rfl

/-- Every base selection is a non-author: its persona comes from the
author-excluded active pool. -/
theorem commenterBase_non_author (personas : List Persona) (postAuthorId : String)
    (comments : List PlannedComment) (target : Nat) (rand : Nat → ℚ) :
    ∀ s ∈ commenterBase personas postAuthorId comments target rand,
      s.persona.id ≠ postAuthorId := by
  intro s hs
  unfold commenterBase at hs
  simp only [List.mem_map] at hs
  obtain ⟨x, hx, hxeq⟩ := hs
  have hx2 := List.mem_of_mem_take hx
  have hx3 := (List.mergeSort_perm _ (fun a b : ScoredPersona =>
    decide (b.score ≤ a.score))).subset hx2
  obtain ⟨hx4, _⟩ := List.mem_filter.1 hx3
  have hmem := (scoreCommentCandidates_sound comments rand _ 0 x hx4).1
  have hne := (List.mem_filter.1 hmem).2
  rw [← hxeq]
  simpa using hne

/-- The base selection count is bounded by the target, the under-cap
non-author pool size and 4. -/
theorem commenterBase_length_le (personas : List Persona) (postAuthorId : String)
    (comments : List PlannedComment) (target : Nat) (rand : Nat → ℚ)
    (HR : ∀ n, 0 ≤ rand n ∧ rand n < 1) :
    (commenterBase personas postAuthorId comments target rand).length ≤
      min target (min
        (((personas.filter (fun p => p.is_active)).filter
            (fun p => p.id ≠ postAuthorId)).filter
          (fun p => commentsThisWeekFor comments p.id <
            DEFAULT_MAX_COMMENTS_PER_WEEK)).length
        4) := by
  unfold commenterBase
  simp only [List.length_map, List.length_take]
  have hsl : (((scoreCommentCandidates comments rand
      ((personas.filter (fun p => p.is_active)).filter
        (fun p => p.id ≠ postAuthorId)) 0).1.filter
      (fun s => 0 ≤ s.score)).mergeSort (fun a b => decide (b.score ≤ a.score))).length =
      (((personas.filter (fun p => p.is_active)).filter
        (fun p => p.id ≠ postAuthorId)).filter
        (fun p => commentsThisWeekFor comments p.id <
          DEFAULT_MAX_COMMENTS_PER_WEEK)).length :=
    (List.mergeSort_perm _ _).length_eq.trans
      (scoreCommentCandidates_filter_length comments rand (fun n => (HR n).1) _ 0)
  have hfl := floor_draw_le_four (rand (scoreCommentCandidates comments rand
    ((personas.filter (fun p => p.is_active)).filter
      (fun p => p.id ≠ postAuthorId)) 0).2)
    (HR _).1 (HR _).2
  omega

/-- C8: for every random outcome in [0,1), selectCommenters returns at most
`min(targetCommentCount, under-cap non-author pool size, 4)` non-author
selections; the post author can appear only once, only as the final entry,
only with reason author_reply, and only when under the 10-comment weekly cap;
no other selection is the post author. -/
theorem selectCommenters_bounds (personas : List Persona) (postAuthorId : String)
    (posts : List PlannedPost) (comments : List PlannedComment)
    (target : Nat) (rand : Nat → ℚ) (HR : ∀ n, 0 ≤ rand n ∧ rand n < 1) :
    ((selectCommenters personas postAuthorId posts comments target rand).filter
        (fun s => s.persona.id ≠ postAuthorId)).length ≤
      min target (min
        (((personas.filter (fun p => p.is_active)).filter
            (fun p => p.id ≠ postAuthorId)).filter
          (fun p => commentsThisWeekFor comments p.id <
            DEFAULT_MAX_COMMENTS_PER_WEEK)).length
        4) ∧
    ∀ (i : Nat)
      (hi : i < (selectCommenters personas postAuthorId posts comments target rand).length),
      ((selectCommenters personas postAuthorId posts comments target rand).get
          ⟨i, hi⟩).persona.id = postAuthorId →
      i + 1 = (selectCommenters personas postAuthorId posts comments target rand).length ∧
      ((selectCommenters personas postAuthorId posts comments target rand).get
          ⟨i, hi⟩).reason = "author_reply" ∧
      commentsThisWeekFor comments postAuthorId < DEFAULT_MAX_COMMENTS_PER_WEEK := by
  have hne := commenterBase_non_author personas postAuthorId comments target rand
  have hlen := commenterBase_length_le personas postAuthorId comments target rand HR
  rcases selectCommenters_split personas postAuthorId posts comments target rand with
    hsplit | ⟨pa, hsplit, hpa, hcap⟩
  · rw [hsplit]
    constructor
    · calc ((commenterBase personas postAuthorId comments target rand).filter
            (fun s => s.persona.id ≠ postAuthorId)).length ≤
          (commenterBase personas postAuthorId comments target rand).length :=
            List.length_filter_le _ _
        _ ≤ _ := hlen
    · intro i hi hid
      exact absurd hid (hne _ (List.get_mem _ i hi))
  · rw [hsplit]
    constructor
    · rw [List.filter_append]
      have hfb : (commenterBase personas postAuthorId comments target rand).filter
          (fun s => s.persona.id ≠ postAuthorId) =
          commenterBase personas postAuthorId comments target rand :=
        List.filter_eq_self.2 (fun a ha => by simpa using hne a ha)
      have hfa : ([(⟨pa, "author_reply"⟩ : PersonaSelection)].filter
          (fun s => s.persona.id ≠ postAuthorId)) = [] := by
        simp [hpa]
      rw [hfb, hfa, List.append_nil]
      exact hlen
    · intro i hi hid
      have hi2 : i < (commenterBase personas postAuthorId comments target rand).length + 1 := by
        simpa [List.length_append] using hi
      by_cases hilt : i < (commenterBase personas postAuthorId comments target rand).length
      · exfalso
        have hget : (commenterBase personas postAuthorId comments target rand ++
            [(⟨pa, "author_reply"⟩ : PersonaSelection)]).get ⟨i, hi⟩ =
            (commenterBase personas postAuthorId comments target rand).get ⟨i, hilt⟩ := by
          simp only [List.get_eq_getElem]
          exact List.getElem_append_left hilt
        rw [hget] at hid
        exact hne _ (List.get_mem _ i hilt) hid
      · have hieq : i = (commenterBase personas postAuthorId comments target rand).length := by
          omega
        have hget : (commenterBase personas postAuthorId comments target rand ++
            [(⟨pa, "author_reply"⟩ : PersonaSelection)]).get ⟨i, hi⟩ =
            (⟨pa, "author_reply"⟩ : PersonaSelection) := by
          simp only [List.get_eq_getElem]
          exact List.getElem_concat_length _ _ _ hieq _
        refine ⟨by rw [List.length_append, List.length_singleton]; omega, ?_, hcap⟩
        rw [hget]

/-- Witness for C8 at a concrete input: two active personas, author "pa", zero
draws. -/
theorem selectCommenters_bounds_witness :
    ((selectCommenters [⟨"pa", "a", "", true, false⟩, ⟨"pb", "b", "", true, false⟩]
        "pa" [] [] 3 (fun _ => 0)).filter
        (fun s => s.persona.id ≠ "pa")).length ≤
      min 3 (min
        ((([(⟨"pa", "a", "", true, false⟩ : Persona),
            ⟨"pb", "b", "", true, false⟩].filter (fun p => p.is_active)).filter
            (fun p => p.id ≠ "pa")).filter
          (fun p => commentsThisWeekFor [] p.id < DEFAULT_MAX_COMMENTS_PER_WEEK)).length
        4) :=
  (selectCommenters_bounds [⟨"pa", "a", "", true, false⟩, ⟨"pb", "b", "", true, false⟩]
    "pa" [] [] 3 (fun _ => 0) (fun _ => ⟨le_refl 0, by norm_num⟩)).1
